import Mathlib

/-!
Shallow embedding, in Lean 4, of the search-and-validation core of the
Sokoban PCG repository (`pcg_generator.py`, `sokoban.py`, `Level.py`),
together with theorems settling the specification claims about it.

Conventions used throughout:
* grids are `List (List Cell)` in row-major order, positions are `(row, col)`
  pairs of naturals, mirroring the `(r, c)` tuples of the source;
* Python `set`s whose only observable operations are insertion and membership
  are modelled as lists with append-insertion (duplicates never affect
  membership);
* loops whose termination is enforced by the data (BFS over at most
  `rows*cols` distinct in-bounds cells, recursion over a strictly growing
  visited set) are written with an explicit fuel argument that is chosen
  large enough (`rows*cols + 1`) that the fuel can never be exhausted before
  the Python loop would have ended;
* the mutable matrices of `solve_sokoban_bfs` are modelled with an explicit
  heap of matrices (`Heap`), so that the read-only/frame claims about the
  solver are genuine statements rather than artifacts of a pure embedding.
-/

namespace Sokoban

/-- Cell kinds of the Sokoban grid, mirroring the character constants
`WALL '#'`, `FLOOR ' '`, `PLAYER '@'`, `BOX '$'`, `GOAL '.'`,
`BOX_ON_GOAL '*'`, `PLAYER_ON_GOAL '+'` of `pcg_generator.py`. -/
inductive Cell where
  | wall
  | floor
  | player
  | box
  | goal
  | boxOnGoal
  | playerOnGoal
deriving DecidableEq, Repr

abbrev Pos := Nat × Nat

abbrev Mat := List (List Cell)

/-- Enumeration of one row starting at column `c`. -/
def rowEnum (r : Nat) : Nat → List Cell → List (Pos × Cell)
  | _, [] => []
  | c, x :: xs => ((r, c), x) :: rowEnum r (c + 1) xs

/-- Enumeration of the rows starting at row `r`. -/
def cellsEnumAux : Nat → Mat → List (Pos × Cell)
  | _, [] => []
  | r, row :: rows => rowEnum r 0 row ++ cellsEnumAux (r + 1) rows

/-- Row-major enumeration of a grid: every cell with its `(row, col)` index,
in the order the nested `for r, row in enumerate(matrix): for c, char in
enumerate(row)` loops of the source visit them. -/
def cellsEnum (m : Mat) : List (Pos × Cell) :=
  cellsEnumAux 0 m

/-- Cell holds the player (`@` or `+`). -/
def Cell.isPlayerCell (c : Cell) : Bool :=
  c = .player || c = .playerOnGoal

/-- Cell holds a box (`$` or `*`). -/
def Cell.isBoxCell (c : Cell) : Bool :=
  c = .box || c = .boxOnGoal

/-- Cell is a goal square (`.`, `*` or `+`). -/
def Cell.isGoalCell (c : Cell) : Bool :=
  c = .goal || c = .boxOnGoal || c = .playerOnGoal

/-- One step of the scan of `get_player_and_boxes_positions`: a player marker
overwrites the player slot (so a later marker wins), a box marker is appended
to the box list, anything else is skipped. -/
def scanStep (acc : Option Pos × List Pos) (pc : Pos × Cell) : Option Pos × List Pos :=
  if pc.2.isPlayerCell then (some pc.1, acc.2)
  else if pc.2.isBoxCell then (acc.1, acc.2 ++ [pc.1])
  else acc

/-- Embedding of `get_player_and_boxes_positions` (pcg_generator.py:91):
scan the matrix, recording the player position (`None` when no marker is
found; the variable is simply overwritten, so with several markers the last
one in scan order is kept) and the box positions in scan order. -/
def get_player_and_boxes_positions (m : Mat) : Option Pos × List Pos :=
  (cellsEnum m).foldl scanStep (none, [])

/-- Embedding of `get_goal_positions` (pcg_generator.py:103): positions of
all `GOAL`, `BOX_ON_GOAL` and `PLAYER_ON_GOAL` cells in scan order. -/
def get_goal_positions (m : Mat) : List Pos :=
  ((cellsEnum m).filter fun pc => pc.2.isGoalCell).map (·.1)

/-- Embedding of `is_level_solved` (pcg_generator.py:112): empty box or goal
collections are not solved; otherwise the two position sets must be equal
(`len(box_set) == len(goal_set) and box_set == goal_set` on Python sets,
modelled by deduplication plus mutual containment). -/
def is_level_solved (boxes goals : List Pos) : Bool :=
  if boxes = [] || goals = [] then false
  else
    let bs := boxes.dedup
    let gs := goals.dedup
    bs.length == gs.length && bs.all (fun b => b ∈ gs) && gs.all (fun g => g ∈ bs)

/-- Cell at `(r, c)`; the default (used only behind the source's own bounds
checks) is `wall`. -/
def cellAt (m : Mat) (r c : Nat) : Cell :=
  (m.getD r []).getD c .wall

/-- Write cell `(r, c)` (a no-op out of bounds, which the source never does). -/
def setCell (m : Mat) (r c : Nat) (v : Cell) : Mat :=
  m.set r ((m.getD r []).set c v)

/-- Row count `len(matrix)`. -/
def numRows (m : Mat) : Nat := m.length

/-- Column count `len(matrix[0])` (the source assumes a rectangular grid). -/
def numCols (m : Mat) : Nat := (m.headD []).length

/-- The four direction deltas `[(-1, 0), (1, 0), (0, -1), (0, 1)]`. -/
def dirs4 : List (Int × Int) := [(-1, 0), (1, 0), (0, -1), (0, 1)]

/-- Bounds test `0 <= r < rows and 0 <= c < cols` on signed coordinates. -/
def inBoundsI (rows cols : Nat) (r c : Int) : Bool :=
  0 ≤ r && r < (rows : Int) && 0 ≤ c && c < (cols : Int)

/-! ### Simple deadlocks (pcg_generator.py:124) -/

/-- Cell rewrite building `clean_matrix`: boxes removed (`BOX -> FLOOR`,
`BOX_ON_GOAL -> GOAL`), all other cells kept. -/
def cleanCell : Cell → Cell
  | .box => .floor
  | .boxOnGoal => .goal
  | c => c

/-- The `clean_matrix` of `detect_simple_deadlocks`. -/
def cleanMatrix (m : Mat) : Mat := m.map (List.map cleanCell)

/-- Cell kinds a box or the pushing player may occupy in the clean matrix:
`[FLOOR, GOAL, PLAYER, PLAYER_ON_GOAL]`. -/
def pullOpen (c : Cell) : Bool :=
  c = .floor || c = .goal || c = .player || c = .playerOnGoal

/-- One reverse-BFS expansion of `detect_simple_deadlocks` from a dequeued
square `(r, c)`: for each direction, the candidate box square and the square
the pushing player would need are examined; valid unvisited box squares are
appended to the visited set and the queue, in direction order. -/
def simpleExpand (clean : Mat) (rows cols : Nat) (r c : Nat)
    (vq : List Pos × List Pos) : List Pos × List Pos :=
  dirs4.foldl (fun vq d =>
    let br : Int := (r : Int) + d.1
    let bc : Int := (c : Int) + d.2
    let pr : Int := br + d.1
    let pc : Int := bc + d.2
    if inBoundsI rows cols br bc && inBoundsI rows cols pr pc then
      let bp : Pos := (br.toNat, bc.toNat)
      if pullOpen (cellAt clean bp.1 bp.2) && pullOpen (cellAt clean pr.toNat pc.toNat)
          && !(bp ∈ vq.1 : Bool) then
        (vq.1 ++ [bp], vq.2 ++ [bp])
      else vq
    else vq) vq

/-- The per-goal reverse BFS of `detect_simple_deadlocks`.  `fuel` bounds the
number of dequeues; each dequeued square was enqueued exactly once while
unvisited and in bounds, so with fuel `rows*cols + 1` the queue always
empties before the fuel does, as in the unbounded Python loop. -/
def simpleBfsLoop (clean : Mat) (rows cols : Nat) :
    Nat → List Pos → List Pos → List Pos → List Pos
  | 0, _, _, reach => reach
  | _ + 1, [], _, reach => reach
  | fuel + 1, p :: qrest, visited, reach =>
    let reach := reach ++ [p]
    let vq := simpleExpand clean rows cols p.1 p.2 (visited, qrest)
    simpleBfsLoop clean rows cols fuel vq.2 vq.1 reach

/-- Cell kinds listed as non-wall squares in the final scan of
`detect_simple_deadlocks`. -/
def nonWallKinds (c : Cell) : Bool :=
  c = .floor || c = .goal || c = .player || c = .playerOnGoal || c = .box || c = .boxOnGoal

/-- Embedding of `detect_simple_deadlocks` (pcg_generator.py:124): squares of
the box-free layout from which no goal can be reached by pushes; every
non-wall, unreached, non-goal square is a permanent deadlock square. -/
def detect_simple_deadlocks (m : Mat) : List Pos :=
  let rows := numRows m
  let cols := numCols m
  let goals := get_goal_positions m
  let clean := cleanMatrix m
  let reach := goals.foldl
    (fun reach g => simpleBfsLoop clean rows cols (rows * cols + 1) [g] [g] reach) []
  (List.range rows).foldl (fun acc r =>
    (List.range cols).foldl (fun acc c =>
      if nonWallKinds (cellAt clean r c) && !((r, c) ∈ reach : Bool)
          && !((r, c) ∈ goals : Bool) then
        acc ++ [(r, c)]
      else acc) acc) []

/-! ### Freeze deadlocks (pcg_generator.py:189) -/

/-- Axis argument of the `is_box_blocked` helper. -/
inductive Axis where
  | horizontal
  | vertical
deriving DecidableEq, Repr

/-- Embedding of the recursive helper `is_box_blocked` of
`detect_freeze_deadlocks`.  The Python helper mutates a single shared
`checked_boxes` set across all recursive calls of one top-level invocation;
this is modelled by threading the set through the call tree (each call
returns the grown set, which the next sibling call receives).  The recursion
adds one previously unchecked box per level, so its depth is bounded by the
number of cells; fuel `rows*cols + 1` therefore never runs out (the fuel-0
answer `false` is conservative and unreachable). -/
def is_box_blocked (m : Mat) (rows cols : Nat) (goals : List Pos) :
    Nat → Nat → Nat → Axis → List Pos → Bool × List Pos
  | 0, _, _, _, checked => (false, checked)
  | fuel + 1, br, bc, axis, checked =>
    if (br, bc) ∈ checked then (true, checked)
    else
      let checked := (br, bc) :: checked
      if (br, bc) ∈ goals then (false, checked)
      else
        match axis with
        | .horizontal =>
          let left :=
            if bc = 0 || cellAt m br (bc - 1) = .wall then (true, checked)
            else if (cellAt m br (bc - 1)).isBoxCell then
              is_box_blocked m rows cols goals fuel br (bc - 1) .vertical checked
            else (false, checked)
          let right :=
            if bc = cols - 1 || cellAt m br (bc + 1) = .wall then (true, left.2)
            else if (cellAt m br (bc + 1)).isBoxCell then
              is_box_blocked m rows cols goals fuel br (bc + 1) .vertical left.2
            else (false, left.2)
          (left.1 && right.1, right.2)
        | .vertical =>
          let up :=
            if br = 0 || cellAt m (br - 1) bc = .wall then (true, checked)
            else if (cellAt m (br - 1) bc).isBoxCell then
              is_box_blocked m rows cols goals fuel (br - 1) bc .horizontal checked
            else (false, checked)
          let down :=
            if br = rows - 1 || cellAt m (br + 1) bc = .wall then (true, up.2)
            else if (cellAt m (br + 1) bc).isBoxCell then
              is_box_blocked m rows cols goals fuel (br + 1) bc .horizontal up.2
            else (false, up.2)
          (up.1 && down.1, down.2)

/-- Embedding of `detect_freeze_deadlocks` (pcg_generator.py:189): some box
not on a goal is blocked along both axes (each top-level axis check starts
from a fresh `checked_boxes` set). -/
def detect_freeze_deadlocks (m : Mat) (boxes goals : List Pos) : Bool :=
  let rows := numRows m
  let cols := numCols m
  boxes.any fun b =>
    if b ∈ goals then false
    else
      (is_box_blocked m rows cols goals (rows * cols + 1) b.1 b.2 .horizontal []).1 &&
      (is_box_blocked m rows cols goals (rows * cols + 1) b.1 b.2 .vertical []).1

/-! ### Corral deadlocks (pcg_generator.py:272) -/

/-- Cells the player may walk through: everything but `WALL`, `BOX`,
`BOX_ON_GOAL`. -/
def walkOpen (c : Cell) : Bool :=
  !(c = .wall || c = .box || c = .boxOnGoal)

/-- Player flood fill of `detect_corral_deadlocks`; squares join the
reachable set when enqueued.  Fuel as in `simpleBfsLoop`. -/
def corralBfsLoop (m : Mat) (rows cols : Nat) :
    Nat → List Pos → List Pos → List Pos
  | 0, _, reach => reach
  | _ + 1, [], reach => reach
  | fuel + 1, p :: qrest, reach =>
    let rq := dirs4.foldl (fun (rq : List Pos × List Pos) d =>
      let nr : Int := (p.1 : Int) + d.1
      let nc : Int := (p.2 : Int) + d.2
      if inBoundsI rows cols nr nc then
        let np : Pos := (nr.toNat, nc.toNat)
        if walkOpen (cellAt m np.1 np.2) && !(np ∈ rq.1 : Bool) then
          (rq.1 ++ [np], rq.2 ++ [np])
        else rq
      else rq) (reach, qrest)
    corralBfsLoop m rows cols fuel rq.2 rq.1

/-- Embedding of `detect_corral_deadlocks` (pcg_generator.py:272): some box
not on a goal has no player-reachable adjacent square. -/
def detect_corral_deadlocks (m : Mat) (playerPos : Pos) (boxes goals : List Pos) : Bool :=
  let rows := numRows m
  let cols := numCols m
  let reach := corralBfsLoop m rows cols (rows * cols + 1) [playerPos] [playerPos]
  boxes.any fun b =>
    if b ∈ goals then false
    else
      !(dirs4.any fun d =>
        let nr : Int := (b.1 : Int) + d.1
        let nc : Int := (b.2 : Int) + d.2
        inBoundsI rows cols nr nc && ((nr.toNat, nc.toNat) ∈ reach : Bool))

/-- Embedding of `has_deadlock` (pcg_generator.py:316): a missing player,
empty box list or empty goal list is reported as a deadlock immediately;
otherwise the three detectors are consulted in order. -/
def has_deadlock (m : Mat) : Bool :=
  let scan := get_player_and_boxes_positions m
  let goals := get_goal_positions m
  match scan.1 with
  | none => true
  | some p =>
    if scan.2 = [] then true
    else if goals = [] then true
    else
      let dead := detect_simple_deadlocks m
      if scan.2.any (fun b => (b ∈ dead : Bool) && !(b ∈ goals : Bool)) then true
      else if detect_freeze_deadlocks m scan.2 goals then true
      else if detect_corral_deadlocks m p scan.2 goals then true
      else false

/-- Embedding of `is_valid_level` (pcg_generator.py:343). -/
def is_valid_level (m : Mat) : Bool :=
  let scan := get_player_and_boxes_positions m
  let goals := get_goal_positions m
  match scan.1 with
  | none => false
  | some _ =>
    if scan.2 = [] then false
    else if goals = [] then false
    else if scan.2.length ≠ goals.length then false
    else
      let boxesOnGoals := scan.2.countP fun b => decide (b ∈ goals)
      if boxesOnGoals = scan.2.length then false
      else if 1 < boxesOnGoals then false
      else if has_deadlock m then false
      else true

/-! ### The BFS solver (pcg_generator.py:379) -/

/-- Solver moves `'U'`, `'D'`, `'L'`, `'R'`. -/
inductive Move where
  | U
  | D
  | L
  | R
deriving DecidableEq, Repr

/-- Row/column delta of a move, as in the solver's direction table
`[(-1, 0, 'U'), (1, 0, 'D'), (0, -1, 'L'), (0, 1, 'R')]`. -/
def moveDelta : Move → Int × Int
  | .U => (-1, 0)
  | .D => (1, 0)
  | .L => (0, -1)
  | .R => (0, 1)

/-- Direction iteration order of the solver: Up, Down, Left, Right. -/
def solverDirs : List Move := [.U, .D, .L, .R]

/-- Lexicographic order on positions, the order `sorted` uses on int pairs. -/
def posLe (p q : Pos) : Bool :=
  p.1 < q.1 || (p.1 = q.1 && p.2 ≤ q.2)

/-- Insertion into a lexicographically sorted position list. -/
def insertSorted (x : Pos) : List Pos → List Pos
  | [] => [x]
  | y :: ys => if posLe x y then x :: y :: ys else y :: insertSorted x ys

/-- Embedding of `tuple(sorted(positions))`: the positions in lexicographic
order (insertion sort; box position lists never contain duplicates, so any
correct sort produces the same list `sorted` does). -/
def sortPos (l : List Pos) : List Pos := l.foldr insertSorted []

/-- One direction attempt of the solver's inner loop (pcg_generator.py:419).
Given the dequeued matrix, the player position and box list scanned from it,
and a move, this performs exactly the move-processing block of the source on
a fresh copy of the matrix: bounds check, simple move onto `FLOOR`/`GOAL`
(two cell writes), or push of a `BOX`/`BOX_ON_GOAL` whose far cell is in
bounds and `FLOOR`/`GOAL` (three cell writes and the
`new_box_positions.remove/append` pair); anything else is invalid.  Returns
the next matrix, the new player position and the new box list. -/
def tryDir (cur : Mat) (pp : Pos) (boxes : List Pos) (mv : Move) :
    Option (Mat × Pos × List Pos) :=
  let d := moveDelta mv
  let npr : Int := (pp.1 : Int) + d.1
  let npc : Int := (pp.2 : Int) + d.2
  if inBoundsI (numRows cur) (numCols cur) npr npc then
    let nr := npr.toNat
    let nc := npc.toNat
    let charAtNew := cellAt cur nr nc
    if charAtNew = .floor || charAtNew = .goal then
      let m1 := setCell cur nr nc (if charAtNew = .goal then .playerOnGoal else .player)
      let m2 := setCell m1 pp.1 pp.2
        (if cellAt m1 pp.1 pp.2 = .playerOnGoal then .goal else .floor)
      some (m2, (nr, nc), boxes)
    else if charAtNew.isBoxCell then
      let pbr : Int := npr + d.1
      let pbc : Int := npc + d.2
      if inBoundsI (numRows cur) (numCols cur) pbr pbc then
        let br := pbr.toNat
        let bc := pbc.toNat
        let charBeyond := cellAt cur br bc
        if charBeyond = .floor || charBeyond = .goal then
          let m1 := setCell cur br bc (if charBeyond = .goal then .boxOnGoal else .box)
          let m2 := setCell m1 nr nc
            (if charAtNew = .boxOnGoal then .playerOnGoal else .player)
          let m3 := setCell m2 pp.1 pp.2
            (if cellAt m2 pp.1 pp.2 = .playerOnGoal then .goal else .floor)
          some (m3, (nr, nc), (boxes.erase (nr, nc)) ++ [(br, bc)])
        else none
      else none
    else none
  else none

/-- Processing of the four directions for one dequeued node
(pcg_generator.py:419-484).  For each valid move whose state key is
unvisited: a solved result returns `path + [move]` immediately (`Sum.inl`),
a deadlocked result is discarded, anything else is added to the visited set
and the pending queue additions.  `Sum.inr` carries the final visited set
and queue additions. -/
def stepDirs (goals : List Pos) (cur : Mat) (path : List Move) (pp : Pos)
    (boxes : List Pos) :
    List Move → List (Pos × List Pos) → List (Mat × List Move) →
    Sum (List Move) (List (Pos × List Pos) × List (Mat × List Move))
  | [], vis, adds => .inr (vis, adds)
  | mv :: ds, vis, adds =>
    match tryDir cur pp boxes mv with
    | none => stepDirs goals cur path pp boxes ds vis adds
    | some (next, npp, nboxes) =>
      let key := (npp, sortPos nboxes)
      if key ∈ vis then stepDirs goals cur path pp boxes ds vis adds
      else if is_level_solved nboxes goals then .inl (path ++ [mv])
      else if has_deadlock next then stepDirs goals cur path pp boxes ds vis adds
      else stepDirs goals cur path pp boxes ds (vis ++ [key])
        (adds ++ [(next, path ++ [mv])])

/-- The solver's BFS loop, with `fuel` playing the role of
`max_iterations - iterations` (the loop body runs once per fuel unit, and
stops on an empty queue or exhausted fuel, returning `none` as the Python
loop falls through to `return None`).  Each dequeued matrix is rescanned, as
in the source.  A queued matrix without a player marker cannot occur (the
initial matrix has one and every transition preserves it); it is skipped. -/
def bfsLoop (goals : List Pos) :
    Nat → List (Mat × List Move) → List (Pos × List Pos) → Option (List Move)
  | 0, _, _ => none
  | _ + 1, [], _ => none
  | fuel + 1, (tup, path) :: rest, visited =>
    match (get_player_and_boxes_positions tup).1 with
    | none => bfsLoop goals fuel rest visited
    | some pp =>
      let boxes := (get_player_and_boxes_positions tup).2
      match stepDirs goals tup path pp boxes solverDirs visited [] with
      | .inl sol => some sol
      | .inr va => bfsLoop goals fuel (rest ++ va.2) va.1

/-- Pure form of `solve_sokoban_bfs` (pcg_generator.py:379): initial scans,
early exits for malformed or already-solved input, then the BFS loop with
the iteration budget (default 100000).  The heap-passing form below is
proved equal to this one. -/
def solveSokobanBfsPure (m : Mat) (maxIterations : Nat := 100000) : Option (List Move) :=
  let scan := get_player_and_boxes_positions m
  let goals := get_goal_positions m
  match scan.1 with
  | none => none
  | some pp =>
    if scan.2 = [] then none
    else if goals = [] then none
    else if is_level_solved scan.2 goals then some []
    else bfsLoop goals maxIterations [(m, [])] [(pp, sortPos scan.2)]

/-! ### Single moves and replays -/

/-- The spec's `apply_move`: one player step or push applied to a grid, with
exactly the solver's transition semantics (`tryDir` on the scanned player
position); `none` when the move is rejected or the grid has no player. -/
def apply_move (m : Mat) (mv : Move) : Option Mat :=
  match (get_player_and_boxes_positions m).1 with
  | none => none
  | some pp => (tryDir m pp (get_player_and_boxes_positions m).2 mv).map (·.1)

/-- Replay of a move sequence in which every move must be legal; `none` as
soon as one move is rejected. -/
def replayLegal (m : Mat) : List Move → Option Mat
  | [] => some m
  | mv :: rest =>
    match apply_move m mv with
    | none => none
    | some m2 => replayLegal m2 rest

/-- Total replay: a rejected move leaves the state unchanged (the
`apply_move` contract of the spec) and the replay continues. -/
def replayTotal (m : Mat) : List Move → Mat
  | [] => m
  | mv :: rest =>
    match apply_move m mv with
    | none => replayTotal m rest
    | some m2 => replayTotal m2 rest

/-- The grid is solved: `is_level_solved` on its scanned box and goal
positions. -/
def isSolvedState (m : Mat) : Bool :=
  is_level_solved (get_player_and_boxes_positions m).2 (get_goal_positions m)

/-! ### Heap-passing form of the solver

`solve_sokoban_bfs` mutates Python list-of-list matrices.  To make the
read-only claims about it meaningful, matrices are placed in an explicit
heap (`List Mat`); every `[list(row) for row in t]` / `[row[:] for row in m]`
copy allocates a fresh heap cell, and every `next_matrix[r][c] = v`
statement is a read-modify-write of that cell.  The caller's matrix lives in
the heap as well, and the frame theorems below show the solver never writes
to any heap cell that existed before the call. -/

abbrev Heap := List Mat

/-- Read a heap cell. -/
def hget (h : Heap) (r : Nat) : Mat := h.getD r []

/-- Overwrite a heap cell. -/
def hset (h : Heap) (r : Nat) (m : Mat) : Heap := h.set r m

/-- Heap form of one direction attempt of the solver loop.  The
`next_matrix = [row[:] for row in current_matrix]` copy allocates a fresh
cell (this happens before the bounds check, as in the source); all writes
target that cell. -/
def tryDirS (h0 : Heap) (curRef : Nat) (pp : Pos) (boxes : List Pos) (mv : Move) :
    Option (Nat × Pos × List Pos) × Heap :=
  let d := moveDelta mv
  let npr : Int := (pp.1 : Int) + d.1
  let npc : Int := (pp.2 : Int) + d.2
  let nref := h0.length
  let h := h0 ++ [hget h0 curRef]
  if inBoundsI (numRows (hget h nref)) (numCols (hget h nref)) npr npc then
    let nr := npr.toNat
    let nc := npc.toNat
    let charAtNew := cellAt (hget h nref) nr nc
    if charAtNew = .floor || charAtNew = .goal then
      let h := hset h nref
        (setCell (hget h nref) nr nc (if charAtNew = .goal then .playerOnGoal else .player))
      let h := hset h nref
        (setCell (hget h nref) pp.1 pp.2
          (if cellAt (hget h nref) pp.1 pp.2 = .playerOnGoal then .goal else .floor))
      (some (nref, (nr, nc), boxes), h)
    else if charAtNew.isBoxCell then
      let pbr : Int := npr + d.1
      let pbc : Int := npc + d.2
      if inBoundsI (numRows (hget h nref)) (numCols (hget h nref)) pbr pbc then
        let br := pbr.toNat
        let bc := pbc.toNat
        let charBeyond := cellAt (hget h nref) br bc
        if charBeyond = .floor || charBeyond = .goal then
          let h := hset h nref
            (setCell (hget h nref) br bc (if charBeyond = .goal then .boxOnGoal else .box))
          let h := hset h nref
            (setCell (hget h nref) nr nc
              (if charAtNew = .boxOnGoal then .playerOnGoal else .player))
          let h := hset h nref
            (setCell (hget h nref) pp.1 pp.2
              (if cellAt (hget h nref) pp.1 pp.2 = .playerOnGoal then .goal else .floor))
          (some (nref, (nr, nc), (boxes.erase (nr, nc)) ++ [(br, bc)]), h)
        else (none, h)
      else (none, h)
    else (none, h)
  else (none, h)

/-- Heap form of the four-direction processing of one dequeued node. -/
def stepDirsS (goals : List Pos) (path : List Move) (pp : Pos) (boxes : List Pos)
    (curRef : Nat) :
    List Move → List (Pos × List Pos) → List (Mat × List Move) → Heap →
    (Sum (List Move) (List (Pos × List Pos) × List (Mat × List Move))) × Heap
  | [], vis, adds, h => (.inr (vis, adds), h)
  | mv :: ds, vis, adds, h =>
    match tryDirS h curRef pp boxes mv with
    | (none, h2) => stepDirsS goals path pp boxes curRef ds vis adds h2
    | (some r, h2) =>
      let key := (r.2.1, sortPos r.2.2)
      if key ∈ vis then stepDirsS goals path pp boxes curRef ds vis adds h2
      else if is_level_solved r.2.2 goals then (.inl (path ++ [mv]), h2)
      else if has_deadlock (hget h2 r.1) then
        stepDirsS goals path pp boxes curRef ds vis adds h2
      else stepDirsS goals path pp boxes curRef ds (vis ++ [key])
        (adds ++ [(hget h2 r.1, path ++ [mv])]) h2

/-- Heap form of the solver's BFS loop: each iteration allocates the
`current_matrix = [list(row) for row in current_matrix_tuple]` copy in a
fresh cell and works through `stepDirsS`. -/
def bfsLoopS (goals : List Pos) :
    Nat → List (Mat × List Move) → List (Pos × List Pos) → Heap →
    Option (List Move) × Heap
  | 0, _, _, h => (none, h)
  | _ + 1, [], _, h => (none, h)
  | fuel + 1, (tup, path) :: rest, visited, h =>
    let curRef := h.length
    let h2 := h ++ [tup]
    match (get_player_and_boxes_positions (hget h2 curRef)).1 with
    | none => bfsLoopS goals fuel rest visited h2
    | some pp =>
      let boxes := (get_player_and_boxes_positions (hget h2 curRef)).2
      match stepDirsS goals path pp boxes curRef solverDirs visited [] h2 with
      | (.inl sol, h3) => (some sol, h3)
      | (.inr va, h3) => bfsLoopS goals fuel (rest ++ va.2) va.1 h3

/-- Heap form of `solve_sokoban_bfs`: the caller's matrix lives in heap cell
`ref`; the `tuple(tuple(row) for row in initial_matrix)` conversion is the
single read of that cell, after which the solver works on copies only. -/
def solve_sokoban_bfs_heap (h : Heap) (ref : Nat) (maxIterations : Nat) :
    Option (List Move) × Heap :=
  let tup := hget h ref
  let scan := get_player_and_boxes_positions tup
  let goals := get_goal_positions tup
  match scan.1 with
  | none => (none, h)
  | some pp =>
    if scan.2 = [] then (none, h)
    else if goals = [] then (none, h)
    else if is_level_solved scan.2 goals then (some [], h)
    else bfsLoopS goals maxIterations [(tup, [])] [(pp, sortPos scan.2)] h

/-- Embedding of `solve_sokoban_bfs` (pcg_generator.py:379) as called on a
single caller-owned matrix. -/
def solve_sokoban_bfs (m : Mat) (maxIterations : Nat := 100000) : Option (List Move) :=
  (solve_sokoban_bfs_heap [m] 0 maxIterations).1

/-- Heap form of `has_deadlock`: the classifier reads the caller's matrix
and builds only fresh local structures (`clean_matrix`, BFS queues, the
`checked_boxes` set); it performs no heap write at all. -/
def has_deadlock_heap (h : Heap) (ref : Nat) : Bool × Heap :=
  (has_deadlock (hget h ref), h)


/-! ### Concrete levels from the repository and for the claims -/

/-- Decode one character of the level alphabet. -/
def cellOfChar : Char → Cell
  | '#' => .wall
  | '@' => .player
  | '$' => .box
  | '.' => .goal
  | '*' => .boxOnGoal
  | '+' => .playerOnGoal
  | _ => .floor

/-- Build a grid from its rows written as strings, for readability of the
concrete levels below. -/
def levelOfStrings (rows : List String) : Mat :=
  rows.map fun s => s.toList.map cellOfChar

/-- Matrix of `FALLBACK_LEVELS[0]` (pcg_generator.py:27), the 5x5 fixture of
the spec: player `(1,1)`, box `(2,2)`, goal `(2,3)`, framing wall ring. -/
def fallback1 : Mat := levelOfStrings
  ["#####",
   "#@  #",
   "# $.#",
   "#   #",
   "#####"]

/-- Matrix of `FALLBACK_LEVELS[1]` (6x6, two boxes). -/
def fallback2 : Mat := levelOfStrings
  ["######",
   "#    #",
   "#@$ .#",
   "# $ .#",
   "#    #",
   "######"]

/-- Matrix of `FALLBACK_LEVELS[2]` (7x7, three boxes). -/
def fallback3 : Mat := levelOfStrings
  ["#######",
   "#     #",
   "# $ $ #",
   "# .@.$#",
   "#    .#",
   "#     #",
   "#######"]

/-- Matrix of `FALLBACK_LEVELS[3]` (7x7 with obstacles). -/
def fallback4 : Mat := levelOfStrings
  ["#######",
   "#     #",
   "# ### #",
   "#@$ $.#",
   "# ###.#",
   "#    .#",
   "#######"]

/-- Matrix of `FALLBACK_LEVELS[4]` (8x8 with multiple rooms).  Note that row
2 holds two boxes while row 5 holds three goals. -/
def fallback5 : Mat := levelOfStrings
  ["########",
   "#  #   #",
   "# $#$  #",
   "#      #",
   "### ## #",
   "#...@  #",
   "#      #",
   "########"]

/-- Embedding of the `FALLBACK_LEVELS` bank (pcg_generator.py:23): the five
hand-authored grids with their stored solutions. -/
def FALLBACK_LEVELS : List (Mat × List Move) :=
  [(fallback1, [.D, .R]),
   (fallback2, [.R, .R, .D, .R, .U, .L, .D, .R]),
   (fallback3, [.L, .U, .R, .R, .D, .L, .L, .U, .R, .R, .D, .R]),
   (fallback4, [.R, .R, .R, .U, .L, .L, .D, .R, .R, .U, .L, .D, .L, .U, .R, .R, .D]),
   (fallback5, [.U, .U, .U, .L, .L, .D, .R, .U, .L, .D, .D, .R, .U, .U, .R, .R, .R,
                .D, .L, .U, .L, .D, .L, .U, .R, .D])]

/-- A solvable level on which the solver nevertheless fails: the player must
push the box through the single-file corridor into the right chamber, but the
first such push blocks the only approach to the chamber, so the chamber box
is (temporarily) unreachable, `detect_corral_deadlocks` fires, and the BFS
prunes every successor of the initial state. -/
def prunedSolvable : Mat := levelOfStrings
  ["#########",
   "##### $.#",
   "#@$    .#",
   "#####   #",
   "#########"]

/-- The eight-move solution of `prunedSolvable`. -/
def prunedSolvableSolution : List Move := [.R, .R, .R, .R, .R, .L, .U, .R]

/-- A valid level with exactly one box pre-placed on a goal (box `(3,2)` on
goal `(3,2)`; second box `(2,2)` with goal `(2,3)`). -/
def oneBoxOnGoalLevel : Mat := levelOfStrings
  ["#####",
   "#@  #",
   "# $.#",
   "# * #",
   "#####"]

/-- A level with two boxes and a single goal. -/
def twoBoxesOneGoal : Mat := levelOfStrings
  ["######",
   "#@   #",
   "# $$.#",
   "#    #",
   "######"]

/-- Player marker positions of a grid in scan order. -/
def playerMarkers (m : Mat) : List Pos :=
  ((cellsEnum m).filter fun pc => pc.2.isPlayerCell).map (·.1)


/-! ### The game-side move function (sokoban.py, Level.py) -/

/-- Mutable state of a `Level` object as far as `movePlayer` touches it: the
current matrix (`Level.matrix`) and the undo history (`Level.history`). -/
structure LevelState where
  matrix : Mat
  history : List Mat
deriving Repr, DecidableEq

/-- Embedding of `Level.addToHistory` (Level.py:75): append a (deep copy of
the) matrix; when the history then exceeds 100 entries the oldest one is
dropped. -/
def addToHistory (st : LevelState) (m : Mat) : LevelState :=
  let history := st.history ++ [m]
  { st with history := if 100 < history.length then history.tail else history }

/-- Embedding of `Level.getLastMatrix` (Level.py:82): pop the most recent
history entry back into the current matrix (a no-op on empty history). -/
def getLastMatrix (st : LevelState) : LevelState :=
  match st.history.getLast? with
  | none => st
  | some m => { matrix := m, history := st.history.dropLast }

/-- Embedding of `Level.getPlayerPosition` (Level.py:67): the `(x, y)` =
`(column, row)` coordinates of the first player marker in scan order. -/
def getPlayerPosition (m : Mat) : Option (Nat × Nat) :=
  ((cellsEnum m).find? fun pc => pc.2.isPlayerCell).map fun pc => (pc.1.2, pc.1.1)

/-- Direction deltas `(dx, dy)` of `movePlayer` (sokoban.py:128); `x` is
the column, `y` the row. -/
def moveDeltaXY : Move → Int × Int
  | .L => (-1, 0)
  | .R => (1, 0)
  | .U => (0, -1)
  | .D => (0, 1)

/-- Destination cell of a move, in `(x, y)` coordinates. -/
def destXY (x y : Nat) (d : Move) : Int × Int :=
  ((x : Int) + (moveDeltaXY d).1, (y : Int) + (moveDeltaXY d).2)

/-- Double-step cell of a push, in `(x, y)` coordinates. -/
def beyondXY (x y : Nat) (d : Move) : Int × Int :=
  ((x : Int) + 2 * (moveDeltaXY d).1, (y : Int) + 2 * (moveDeltaXY d).2)

/-- The bounds check of `movePlayer`:
`0 <= y < len(matrix) and 0 <= x < len(matrix[y])`. -/
def xyInBounds (m : Mat) (p : Int × Int) : Prop :=
  0 ≤ p.2 ∧ p.2 < (m.length : Int) ∧ 0 ≤ p.1 ∧ p.1 < ((m.getD p.2.toNat []).length : Int)

instance (m : Mat) (p : Int × Int) : Decidable (xyInBounds m p) := by
  unfold xyInBounds
  infer_instance

/-- Embedding of `movePlayer` (sokoban.py:112) on the level state.  The
drawing calls and the level-advance side effects of a successful solving
move are rendering concerns outside the embedded state; everything the
function does to `matrix` and `history` is modelled: the state is pushed
onto the history first, a rejected move pops it back via `getLastMatrix`
and returns `False`, an accepted move installs the updated copy of the
matrix and returns `True`. -/
def movePlayer (st : LevelState) (d : Move) : LevelState × Bool :=
  let matrix := st.matrix
  let st1 := addToHistory st matrix
  match getPlayerPosition matrix with
  | none => (st1, false)
  | some (x, y) =>
    let dest := destXY x y d
    let dd := beyondXY x y d
    if xyInBounds matrix dest then
      let curChar := cellAt matrix y x
      let destChar := cellAt matrix dest.2.toNat dest.1.toNat
      if destChar = .floor ∨ destChar = .goal then
        let m1 := setCell matrix dest.2.toNat dest.1.toNat
          (if destChar = .goal then .playerOnGoal else .player)
        let m2 := setCell m1 y x (if curChar = .playerOnGoal then .goal else .floor)
        ({ st1 with matrix := m2 }, true)
      else if destChar = .box ∨ destChar = .boxOnGoal then
        if xyInBounds matrix dd then
          let beyond := cellAt matrix dd.2.toNat dd.1.toNat
          if beyond = .floor ∨ beyond = .goal then
            let m1 := setCell matrix dd.2.toNat dd.1.toNat
              (if beyond = .goal then .boxOnGoal else .box)
            let m2 := setCell m1 dest.2.toNat dest.1.toNat
              (if destChar = .boxOnGoal then .playerOnGoal else .player)
            let m3 := setCell m2 y x (if curChar = .playerOnGoal then .goal else .floor)
            ({ st1 with matrix := m3 }, true)
          else (getLastMatrix st1, false)
        else (getLastMatrix st1, false)
      else (getLastMatrix st1, false)
    else (getLastMatrix st1, false)


/-- Length of row `r` (`len(matrix[r])`). -/
def rowLen (m : Mat) (r : Nat) : Nat := (m.getD r []).length

/-- Number of box cells of a grid. -/
def boxCount (m : Mat) : Nat := (cellsEnum m).countP fun pc => pc.2.isBoxCell

/-- Number of goal cells of a grid. -/
def goalCount (m : Mat) : Nat := (cellsEnum m).countP fun pc => pc.2.isGoalCell


/-- A box at `q` was pushed by the move: the player marker stood one step
behind `q` and the in-bounds cell one step beyond `q` was free.  This is the
inversion information `apply_move` provides when a box cell disappears. -/
def MovedBox (m : Mat) (mv : Move) (q : Pos) : Prop :=
  ∃ pp : Pos, (get_player_and_boxes_positions m).1 = some pp ∧
    ((q.1 : Int), (q.2 : Int)) =
      ((pp.1 : Int) + (moveDelta mv).1, (pp.2 : Int) + (moveDelta mv).2) ∧
    0 ≤ (q.1 : Int) + (moveDelta mv).1 ∧
    (q.1 : Int) + (moveDelta mv).1 < (numRows m : Int) ∧
    0 ≤ (q.2 : Int) + (moveDelta mv).2 ∧
    (q.2 : Int) + (moveDelta mv).2 < (numCols m : Int) ∧
    (cellAt m ((q.1 : Int) + (moveDelta mv).1).toNat ((q.2 : Int) + (moveDelta mv).2).toNat
        = .floor ∨
     cellAt m ((q.1 : Int) + (moveDelta mv).1).toNat ((q.2 : Int) + (moveDelta mv).2).toNat
        = .goal)


/-- Certificate extracted from a `horizontal` call of `is_box_blocked`: on
each horizontal side of `p` the detector saw the grid edge, a wall, or a box
cell it also visited (collected in `T`). -/
def HCert (m : Mat) (cols : Nat) (T : List Pos) (p : Pos) : Prop :=
  (p.2 = 0 ∨ cellAt m p.1 (p.2 - 1) = .wall ∨
    ((cellAt m p.1 (p.2 - 1)).isBoxCell = true ∧ (p.1, p.2 - 1) ∈ T)) ∧
  (p.2 = cols - 1 ∨ cellAt m p.1 (p.2 + 1) = .wall ∨
    ((cellAt m p.1 (p.2 + 1)).isBoxCell = true ∧ (p.1, p.2 + 1) ∈ T))

/-- Certificate extracted from a `vertical` call of `is_box_blocked`. -/
def VCert (m : Mat) (rows : Nat) (T : List Pos) (p : Pos) : Prop :=
  (p.1 = 0 ∨ cellAt m (p.1 - 1) p.2 = .wall ∨
    ((cellAt m (p.1 - 1) p.2).isBoxCell = true ∧ (p.1 - 1, p.2) ∈ T)) ∧
  (p.1 = rows - 1 ∨ cellAt m (p.1 + 1) p.2 = .wall ∨
    ((cellAt m (p.1 + 1) p.2).isBoxCell = true ∧ (p.1 + 1, p.2) ∈ T))

/-- The certificate produced by an `is_box_blocked` call with the given axis
argument. -/
def AxCert (m : Mat) (rows cols : Nat) (T : List Pos) : Axis → Pos → Prop
  | .horizontal, p => HCert m cols T p
  | .vertical, p => VCert m rows T p

/-- A box at `p` can never be pushed while every box of `T` stays in place:
along each axis it either carries the side certificate for that axis, or an
adjacent box of `T` on that axis occupies one of the two cells a push along
it would need (the player's cell or the destination). -/
def Immobile (m : Mat) (rows cols : Nat) (T : List Pos) (p : Pos) : Prop :=
  (HCert m cols T p ∨ ∃ q, q ∈ T ∧ q.1 = p.1 ∧ (q.2 = p.2 + 1 ∨ p.2 = q.2 + 1)) ∧
  (VCert m rows T p ∨ ∃ q, q ∈ T ∧ q.2 = p.2 ∧ (q.1 = p.1 + 1 ∨ p.1 = q.1 + 1))


/-- Postcondition of a call of `is_box_blocked` (used as the induction
statement over the fuel): the threaded set only grows; and if the call
answers `true`, its own box is in the returned set and every box the call
added is off the goals, carries the certificate of the axis it was first
visited with (for the call root) or is outright `Immobile` relative to the
returned set (for every deeper box, whose perpendicular protector is inside
the set as well). -/
def IBPost (m : Mat) (rows cols : Nat) (goals : List Pos) (fuel : Nat) : Prop :=
  ∀ (br bc : Nat) (axis : Axis) (checked : List Pos),
    (∀ x, x ∈ checked → x ∈ (is_box_blocked m rows cols goals fuel br bc axis checked).2) ∧
    ((is_box_blocked m rows cols goals fuel br bc axis checked).1 = true →
      ((br, bc) : Pos) ∈ (is_box_blocked m rows cols goals fuel br bc axis checked).2 ∧
      ∀ x, x ∈ (is_box_blocked m rows cols goals fuel br bc axis checked).2 →
        ¬ x ∈ checked →
        ¬ x ∈ goals ∧
        (x = ((br, bc) : Pos) →
          AxCert m rows cols (is_box_blocked m rows cols goals fuel br bc axis checked).2 axis x) ∧
        (x ≠ ((br, bc) : Pos) →
          (cellAt m x.1 x.2).isBoxCell = true ∧
          Immobile m rows cols (is_box_blocked m rows cols goals fuel br bc axis checked).2 x))


/-- A 5x5 level with two boxes frozen against the top wall ring (each with a
wall directly below), used to witness the freeze-detector soundness claim. -/
def frozenLevel : Mat := levelOfStrings
  ["#####",
   "#$$ #",
   "### #",
   "# @.#",
   "#####"]


/-! ### RNG oracle model and the level generator (pcg_generator.py:670) -/

/-- The Python `random` module is modelled by an oracle: a stream of raw
natural draws.  Each primitive consumes the head of the stream (an exhausted
stream yields 0), and `random.seed(s)` replaces the stream by `seedFn s`. -/
abbrev Rng := List Nat

/-- One raw draw. -/
def rngNat (g : Rng) : Nat × Rng := (g.headD 0, g.tail)

/-- `random.randint(a, b)` (both ends inclusive): an arbitrary value of the
range, selected by the oracle draw. -/
def randint (a b : Nat) (g : Rng) : Nat × Rng :=
  let (x, g2) := rngNat g
  (a + x % (b - a + 1), g2)

/-- `random.choice(lst)`: an arbitrary element, selected by the draw (the
default is never used: the source only calls `choice` on non-empty lists
behind emptiness guards). -/
def rchoice {α : Type} (l : List α) (dflt : α) (g : Rng) : α × Rng :=
  let (x, g2) := rngNat g
  (l.getD (x % l.length) dflt, g2)

/-- `random.uniform(a, b)` at granularity 1/1000, with `a` and `b` given in
thousandths: the generator uses the drawn float only through
`int((rows + cols) * complexity)`, which for a value of `k` thousandths is
exactly `(rows + cols) * k / 1000` in integer division, so this abstraction
reaches every relevant outcome of the float computation. -/
def runiformMil (a b : Nat) (g : Rng) : Nat × Rng :=
  let (x, g2) := rngNat g
  (a + x % (b - a + 1), g2)

/-- Swap two positions of a list (both in range whenever the source swaps). -/
def listSwap {α : Type} (l : List α) (i j : Nat) : List α :=
  match l.get? i, l.get? j with
  | some a, some b => (l.set i b).set j a
  | _, _ => l

/-- Fisher-Yates core of `random.shuffle`: the index runs from `len - 1`
down to `1`, each step swapping that position with a drawn `j` at most it. -/
def shuffleGo {α : Type} : List α → Rng → Nat → List α × Rng
  | l, g, 0 => (l, g)
  | l, g, i + 1 =>
    let (x, g2) := rngNat g
    let j := x % (i + 2)
    shuffleGo (listSwap l (i + 1) j) g2 i

/-- `random.shuffle(lst)`. -/
def rshuffle {α : Type} (l : List α) (g : Rng) : List α × Rng :=
  shuffleGo l g (l.length - 1)

/-- `create_empty_level` (pcg_generator.py:670): all-floor grid. -/
def create_empty_level (rows cols : Nat) : Mat :=
  List.replicate rows (List.replicate cols .floor)

/-- `add_outer_walls` (pcg_generator.py:674): wall ring on the border. -/
def add_outer_walls (m : Mat) : Mat :=
  let rows := numRows m
  let cols := numCols m
  let m1 := (List.range cols).foldl (fun acc c =>
    setCell (setCell acc 0 c .wall) (rows - 1) c .wall) m
  (List.range rows).foldl (fun acc r =>
    setCell (setCell acc r 0 .wall) r (cols - 1) .wall) m1

/-- One random-walk of `generate_internal_walls`: place walls on floor
cells, drifting in drawn directions, resampling an interior start whenever
the drift leaves the interior. -/
def wallWalk (rows cols : Nat) : Nat → Mat → Rng → Nat → Nat → Mat × Rng
  | 0, m, g, _, _ => (m, g)
  | fuel + 1, m, g, cr, cc =>
    if 1 ≤ cr ∧ cr < rows - 1 ∧ 1 ≤ cc ∧ cc < cols - 1 then
      let m2 := if cellAt m cr cc = .floor then setCell m cr cc .wall else m
      let (d, g2) := rchoice dirs4 (0, 0) g
      let nr : Int := (cr : Int) + d.1
      let nc : Int := (cc : Int) + d.2
      if 1 ≤ nr ∧ nr < (rows : Int) - 1 ∧ 1 ≤ nc ∧ nc < (cols : Int) - 1 then
        wallWalk rows cols fuel m2 g2 nr.toNat nc.toNat
      else
        let (r2, g3) := randint 1 (rows - 2) g2
        let (c2, g4) := randint 1 (cols - 2) g3
        wallWalk rows cols fuel m2 g4 r2 c2
    else (m, g)

/-- `generate_internal_walls` (pcg_generator.py:688); `complexityMil` is the
drawn complexity in thousandths, so `int((rows + cols) * complexity)` is the
integer division below. -/
def generate_internal_walls (m : Mat) (complexityMil : Nat) (g : Rng) : Mat × Rng :=
  let rows := numRows m
  let cols := numCols m
  if rows ≤ 4 ∨ cols ≤ 4 then (m, g)
  else
    let num_walks := (rows + cols) * complexityMil / 1000
    let max_walk_len := (rows + cols) * complexityMil / 1000
    (List.range num_walks).foldl (fun (acc : Mat × Rng) _ =>
      let (sr, g2) := randint 1 (rows - 2) acc.2
      let (sc, g3) := randint 1 (cols - 2) g2
      wallWalk rows cols max_walk_len acc.1 g3 sr sc) (m, g)

/-- The tiles `check_level_connectivity` treats as passable: every non-wall
cell. -/
def connOpen (c : Cell) : Bool := !(c = .wall)

/-- Flood fill of `check_level_connectivity`; same queue discipline as the
other BFS embeddings, with sufficient fuel. -/
def connBfsLoop (m : Mat) (rows cols : Nat) : Nat → List Pos → List Pos → List Pos
  | 0, _, visited => visited
  | _ + 1, [], visited => visited
  | fuel + 1, p :: qrest, visited =>
    let rq := dirs4.foldl (fun (rq : List Pos × List Pos) d =>
      let nr : Int := (p.1 : Int) + d.1
      let nc : Int := (p.2 : Int) + d.2
      if inBoundsI rows cols nr nc then
        let np : Pos := (nr.toNat, nc.toNat)
        if connOpen (cellAt m np.1 np.2) && !(np ∈ rq.1 : Bool) then
          (rq.1 ++ [np], rq.2 ++ [np])
        else rq
      else rq) (visited, qrest)
    connBfsLoop m rows cols fuel rq.2 rq.1

/-- `check_level_connectivity` (pcg_generator.py:760): all non-wall tiles
are mutually reachable. -/
def check_level_connectivity (m : Mat) : Bool :=
  let rows := numRows m
  let cols := numCols m
  match ((cellsEnum m).find? fun pc => connOpen pc.2).map (fun pc => pc.1) with
  | none => false
  | some start =>
    let visited := connBfsLoop m rows cols (rows * cols + 1) [start] [start]
    let allNonWall := (cellsEnum m).countP fun pc => connOpen pc.2
    visited.length == allNonWall

/-- `place_goals` (pcg_generator.py:715): goals go on shuffled floor cells
adjacent to a wall first, then on shuffled arbitrary interior floor cells. -/
def place_goals (m : Mat) (num_goals : Nat) (g : Rng) : Mat × Rng :=
  let rows := numRows m
  let cols := numCols m
  let corner_or_wall_cells := ((cellsEnum m).filter fun pc =>
    decide (1 ≤ pc.1.1 ∧ pc.1.1 ≤ rows - 2 ∧ 1 ≤ pc.1.2 ∧ pc.1.2 ≤ cols - 2) &&
    pc.2 = .floor &&
    (dirs4.any fun d =>
      cellAt m ((pc.1.1 : Int) + d.1).toNat ((pc.1.2 : Int) + d.2).toNat
        = .wall)).map (fun pc => pc.1)
  let (shuffled, g2) := rshuffle corner_or_wall_cells g
  let m2 := (shuffled.take num_goals).foldl (fun acc p => setCell acc p.1 p.2 .goal) m
  let placed := min num_goals shuffled.length
  if placed < num_goals then
    let possible_cells := ((cellsEnum m2).filter fun pc =>
      decide (1 ≤ pc.1.1 ∧ pc.1.1 ≤ rows - 2 ∧ 1 ≤ pc.1.2 ∧ pc.1.2 ≤ cols - 2) &&
      pc.2 = .floor).map (fun pc => pc.1)
    let (shuffled2, g3) := rshuffle possible_cells g2
    ((shuffled2.take (num_goals - placed)).foldl
      (fun acc p => setCell acc p.1 p.2 .goal) m2, g3)
  else (m2, g2)

/-- Cell rewrite of `reverse_play_from_goal`'s clean matrix: walls, floors
and goals are kept, everything else (players and boxes) becomes floor. -/
def cleanCellReverse : Cell → Cell
  | .wall => .wall
  | .floor => .floor
  | .goal => .goal
  | _ => .floor

/-- Pull directions with their recorded move characters
(`[(-1,0,D), (1,0,U), (0,-1,R), (0,1,L)]`). -/
def pullDirs : List ((Int × Int) × Move) :=
  [((-1, 0), .D), ((1, 0), .U), ((0, -1), .R), ((0, 1), .L)]

/-- The two-cell write of a pull: the box leaves `b` for `nb`. -/
def pullApply (m : Mat) (b nb : Pos) : Mat :=
  let isBoxOnGoal := cellAt m b.1 b.2 = .boxOnGoal
  let isNewGoal := cellAt m nb.1 nb.2 = .goal
  setCell (setCell m nb.1 nb.2 (if isNewGoal then .boxOnGoal else .box))
    b.1 b.2 (if isBoxOnGoal then .goal else .floor)

/-- The `valid_pulls` collection of one iteration of the reverse-play loop. -/
def pullsFor (m : Mat) (rows cols : Nat) (pp : Pos) (boxes : List Pos) :
    List (Pos × Pos × Move) :=
  boxes.foldl (fun acc b =>
    pullDirs.foldl (fun acc2 dd =>
      let pr : Int := (b.1 : Int) + dd.1.1
      let pc : Int := (b.2 : Int) + dd.1.2
      let nbr : Int := (b.1 : Int) - dd.1.1
      let nbc : Int := (b.2 : Int) - dd.1.2
      if 0 ≤ pr ∧ pr < (rows : Int) ∧ 0 ≤ pc ∧ pc < (cols : Int) ∧
          0 ≤ nbr ∧ nbr < (rows : Int) ∧ 0 ≤ nbc ∧ nbc < (cols : Int) then
        if (pr.toNat, pc.toNat) = pp then
          if cellAt m nbr.toNat nbc.toNat = .floor ∨
              cellAt m nbr.toNat nbc.toNat = .goal then
            if has_deadlock (pullApply m b (nbr.toNat, nbc.toNat)) then acc2
            else acc2 ++ [(b, (nbr.toNat, nbc.toNat), dd.2)]
          else acc2
        else acc2
      else acc2) acc) []

/-- Player step directions with their move characters
(`[(-1,0,U), (1,0,D), (0,-1,L), (0,1,R)]`). -/
def playerMoveDirs : List ((Int × Int) × Move) :=
  [((-1, 0), .U), ((1, 0), .D), ((0, -1), .L), ((0, 1), .R)]

/-- The `possible_moves` collection used when no pull is available. -/
def movesFor (m : Mat) (rows cols : Nat) (pp : Pos) : List (Pos × Move) :=
  playerMoveDirs.foldl (fun acc dd =>
    let nr : Int := (pp.1 : Int) + dd.1.1
    let nc : Int := (pp.2 : Int) + dd.1.2
    if 0 ≤ nr ∧ nr < (rows : Int) ∧ 0 ≤ nc ∧ nc < (cols : Int) then
      if cellAt m nr.toNat nc.toNat = .floor ∨ cellAt m nr.toNat nc.toNat = .goal then
        acc ++ [((nr.toNat, nc.toNat), dd.2)]
      else acc
    else acc) []

/-- The `opposite_moves` table. -/
def oppositeMove : Move → Move
  | .U => .D
  | .D => .U
  | .L => .R
  | .R => .L

/-- The reverse-play loop of `reverse_play_from_goal`: fuel is the attempt
budget `max_attempts`; each iteration either pulls a drawn valid pull
(recording its move character and leaving the player in place, as the
source does) or walks the player one drawn step (recording the opposite
character), until `target` recorded steps. -/
def reversePullLoop (rows cols target : Nat) :
    Nat → Mat → Rng → List Move → Nat → Mat × Rng × List Move × Nat
  | 0, m, g, path, steps => (m, g, path, steps)
  | fuel + 1, m, g, path, steps =>
    if target ≤ steps then (m, g, path, steps)
    else
      let scan := get_player_and_boxes_positions m
      match scan.1 with
      | none => (m, g, path, steps)
      | some pp =>
        if scan.2 = [] then (m, g, path, steps)
        else
          let vp := pullsFor m rows cols pp scan.2
          if vp = [] then
            let pm := movesFor m rows cols pp
            if pm = [] then reversePullLoop rows cols target fuel m g path steps
            else
              let (mv, g2) := rchoice pm ((0, 0), .U) g
              let isCurGoal := cellAt m pp.1 pp.2 = .playerOnGoal
              let isNewGoal := cellAt m mv.1.1 mv.1.2 = .goal
              let m2 := setCell
                (setCell m mv.1.1 mv.1.2 (if isNewGoal then .playerOnGoal else .player))
                pp.1 pp.2 (if isCurGoal then .goal else .floor)
              reversePullLoop rows cols target fuel m2 g2
                (path ++ [oppositeMove mv.2]) (steps + 1)
          else
            let (pull, g2) := rchoice vp ((0, 0), (0, 0), .U) g
            let m2 := pullApply m pull.1 pull.2.1
            reversePullLoop rows cols target fuel m2 g2
              (path ++ [pull.2.2]) (steps + 1)

/-- Truthiness of a solver result in the source's `if` tests: `None` and the
empty path are falsy. -/
def solveTruthy (r : Option (List Move)) : Bool :=
  match r with
  | none => false
  | some p => !p.isEmpty

/-- Embedding of `reverse_play_from_goal` (pcg_generator.py:491).  Returns
the generated grid and the recorded `solution_path` (which the source
neither reverses nor derives from actual pushes). -/
def reverse_play_from_goal (m : Mat) (num_boxes : Nat) (g : Rng) :
    Option (Mat × List Move) × Rng :=
  let rows := numRows m
  let cols := numCols m
  let goal_positions := get_goal_positions m
  if goal_positions = [] ∨ ¬ goal_positions.length = num_boxes then (none, g)
  else
    let clean0 := m.map (fun row => row.map cleanCellReverse)
    let clean1 := goal_positions.foldl (fun acc p => setCell acc p.1 p.2 .boxOnGoal) clean0
    let viaAdj := goal_positions.findSome? fun p =>
      dirs4.findSome? fun d =>
        let ar : Int := (p.1 : Int) + d.1
        let ac : Int := (p.2 : Int) + d.2
        if inBoundsI rows cols ar ac then
          if cellAt clean1 ar.toNat ac.toNat = .floor then some ((ar.toNat, ac.toNat) : Pos)
          else none
        else none
    let pl? := match viaAdj with
      | some p => some p
      | none => Option.map Prod.fst ((cellsEnum clean1).find? fun pc : Pos × Cell =>
          decide (pc.2 = Cell.floor))
    match pl? with
    | none => (none, g)
    | some pl =>
      let clean2 := setCell clean1 pl.1 pl.2 .player
      let (target_steps, g2) := randint 15 30 g
      let res := reversePullLoop rows cols target_steps (target_steps * 10) clean2 g2 [] 0
      if res.2.2.2 < 10 then (none, res.2.1)
      else if !solveTruthy (solve_sokoban_bfs res.1 100000) then (none, res.2.1)
      else if !is_valid_level res.1 then (none, res.2.1)
      else (some (res.1, res.2.2.1), res.2.1)

/-- The emergency level of `get_fallback_level`. -/
def emergencyLevel : Mat := levelOfStrings
  ["#####",
   "#@$.#",
   "#   #",
   "#####"]

/-- Embedding of `get_fallback_level` (pcg_generator.py:865): verify the
bank entries with the solver, draw one of the verified entries different
from the last one used, re-verify it and return it (with the retry and
emergency paths of the source). -/
def get_fallback_level (g : Rng) (lastFb : Int) : Mat × List Move :=
  let verified := (List.range FALLBACK_LEVELS.length).filter fun i =>
    solveTruthy (solve_sokoban_bfs (FALLBACK_LEVELS.getD i ([], [])).1 100000)
  if verified = [] then (emergencyLevel, [.R, .R])
  else
    let possible := verified.filter fun i : Nat => decide (¬ (i : Int) = lastFb)
    let chosen := if possible = [] then (verified.getD 0 0, g)
      else rchoice possible 0 g
    let fb := FALLBACK_LEVELS.getD chosen.1 ([], [])
    if solveTruthy (solve_sokoban_bfs fb.1 100000) then (fb.1, fb.2)
    else
      match verified.findSome? (fun idx =>
        if ¬ idx = chosen.1 ∧
            solveTruthy (solve_sokoban_bfs (FALLBACK_LEVELS.getD idx ([], [])).1 100000)
        then some (FALLBACK_LEVELS.getD idx ([], []))
        else none) with
      | some alt => (alt.1, alt.2)
      | none => (emergencyLevel, [.R, .R])

/-- The oracle a `generate_level` run consumes: the two time reads and the
seed-to-stream behaviour of the RNG. -/
structure GenOracle where
  timeSeed : Nat
  fallbackSeed : Nat
  seedFn : Nat → Rng

/-- The attempt loop of `generate_level`; fuel counts the remaining
attempts, `attempt` the current index (for the reseed every tenth
attempt). -/
def genAttempts (o : GenOracle) (rows cols num_boxes : Nat) :
    Nat → Nat → Rng → Mat × List Move
  | 0, _, _ => get_fallback_level (o.seedFn o.fallbackSeed) (-1)
  | fuel + 1, attempt, g0 =>
    let g := if attempt % 10 = 0 then o.seedFn (o.timeSeed + attempt) else g0
    let m1 := add_outer_walls (create_empty_level rows cols)
    let (complexity, g2) := runiformMil 100 300 g
    let (m2, g3) := generate_internal_walls m1 complexity g2
    if !check_level_connectivity m2 then
      genAttempts o rows cols num_boxes fuel (attempt + 1) g3
    else
      let (m3, g4) := place_goals m2 num_boxes g3
      let (res, g5) := reverse_play_from_goal m3 num_boxes g4
      match res with
      | none => genAttempts o rows cols num_boxes fuel (attempt + 1) g5
      | some fmsp =>
        if fmsp.2.isEmpty then genAttempts o rows cols num_boxes fuel (attempt + 1) g5
        else if check_level_connectivity fmsp.1 && is_valid_level fmsp.1 &&
            solveTruthy (solve_sokoban_bfs fmsp.1 100000) then fmsp
        else genAttempts o rows cols num_boxes fuel (attempt + 1) g5

/-- Embedding of `generate_level` (pcg_generator.py:810): seed from the
clock, draw the dimensions and box count, then run up to 100 generation
attempts before falling back to the bank. -/
def generate_level (o : GenOracle) : Mat × List Move :=
  let g0 := o.seedFn o.timeSeed
  let (rows, g1) := randint 7 10 g0
  let (cols, g2) := randint 7 10 g1
  let (num_boxes, g3) := randint 1 3 g2
  genAttempts o rows cols num_boxes 100 0 g3

/-- The concrete oracle stream exhibited for claim C1 (trailing draws are
zero, which an exhausted stream also yields). -/
def c1Stream : Rng :=
  [200, 12, 0,
   3, 3, 3, 3,
   3, 0, 3, 3, 3, 3,
   4, 0, 3, 3, 3, 3,
   1, 4, 1, 1, 1, 0,
   8, 7, 0, 5, 4, 3, 2, 1,
   0, 0, 0, 0]

/-- The oracle exhibited for claim C1: every seed maps to `c1Stream`. -/
def c1Oracle : GenOracle := ⟨0, 0, fun _ => c1Stream⟩

/-! ## Theorems

Everything from here on is a proof about the definitions above. -/

theorem hget_append_self (h : Heap) (m : Mat) : hget (h ++ [m]) h.length = m := by
  simp [hget, List.getD_eq_getElem?_getD, List.getElem?_append_right]

theorem hget_append_lt (h : Heap) (m : Mat) (i : Nat) (hi : i < h.length) :
    hget (h ++ [m]) i = hget h i := by
  simp [hget, List.getD_eq_getElem?_getD, List.getElem?_append_left hi]

theorem hget_append_list_lt (h : Heap) (g : List Mat) (i : Nat) (hi : i < h.length) :
    hget (h ++ g) i = hget h i := by
  simp [hget, List.getD_eq_getElem?_getD, List.getElem?_append_left hi]

theorem hset_append_self (h : Heap) (m m2 : Mat) :
    hset (h ++ [m]) h.length m2 = h ++ [m2] := by
  induction h with
  | nil => rfl
  | cons x xs ih => simp [hset, List.set] at ih ⊢

/-- The heap attempt acts on the fresh copy exactly as the pure attempt acts
on the matrix value: the heap grows by exactly one cell holding the final
copy, and nothing else changes. -/
theorem tryDirS_eq (h : Heap) (curRef : Nat) (pp : Pos) (boxes : List Pos) (mv : Move) :
    tryDirS h curRef pp boxes mv =
      match tryDir (hget h curRef) pp boxes mv with
      | none => (none, h ++ [hget h curRef])
      | some r => (some (h.length, r.2.1, r.2.2), h ++ [r.1]) := by
  unfold tryDirS tryDir
  simp only [hget_append_self, hset_append_self]
  split_ifs <;> rfl

/-- Refinement of the heap direction processing to the pure one: the result
is the pure result on the heap cell `curRef`, and the heap only grows. -/
theorem stepDirsS_spec (goals : List Pos) (path : List Move) (pp : Pos)
    (boxes : List Pos) (curRef : Nat) :
    ∀ (ds : List Move) (vis : List (Pos × List Pos)) (adds : List (Mat × List Move))
      (h : Heap), curRef < h.length → ∃ g,
      stepDirsS goals path pp boxes curRef ds vis adds h =
        (stepDirs goals (hget h curRef) path pp boxes ds vis adds, h ++ g) := by
  intro ds
  induction ds with
  | nil =>
    intro vis adds h _
    exact ⟨[], by simp [stepDirsS, stepDirs]⟩
  | cons mv ds ih =>
    intro vis adds h hlt
    have hlt2 : curRef < (h ++ [hget h curRef]).length := by
      simp only [List.length_append, List.length_singleton]
      omega
    have hgl : hget (h ++ [hget h curRef]) curRef = hget h curRef :=
      hget_append_lt h _ curRef hlt
    cases htry : tryDir (hget h curRef) pp boxes mv with
    | none =>
      obtain ⟨g, hg⟩ := ih vis adds (h ++ [hget h curRef]) hlt2
      refine ⟨[hget h curRef] ++ g, ?_⟩
      simp only [stepDirsS, tryDirS_eq, htry, stepDirs, hg, hgl, List.append_assoc]
    | some r =>
      have hlt3 : curRef < (h ++ [r.1]).length := by
        simp only [List.length_append, List.length_singleton]
        omega
      have hgl3 : hget (h ++ [r.1]) curRef = hget h curRef :=
        hget_append_lt h _ curRef hlt
      have hnref : hget (h ++ [r.1]) h.length = r.1 := hget_append_self h r.1
      by_cases hkey : (r.2.1, sortPos r.2.2) ∈ vis
      · obtain ⟨g, hg⟩ := ih vis adds (h ++ [r.1]) hlt3
        refine ⟨[r.1] ++ g, ?_⟩
        simp only [stepDirsS, tryDirS_eq, htry, stepDirs, hg, hgl3, hkey, if_pos,
          List.append_assoc]
      · by_cases hsol : is_level_solved r.2.2 goals = true
        · refine ⟨[r.1], ?_⟩
          simp only [stepDirsS, tryDirS_eq, htry, stepDirs, hkey, hsol]
          simp [hkey, hsol]
        · by_cases hdl : has_deadlock r.1 = true
          · obtain ⟨g, hg⟩ := ih vis adds (h ++ [r.1]) hlt3
            refine ⟨[r.1] ++ g, ?_⟩
            simp only [stepDirsS, tryDirS_eq, htry, stepDirs, hg, hgl3, hnref, hkey, hsol, hdl,
              List.append_assoc]
            simp [hkey, hsol, hdl]
          · obtain ⟨g, hg⟩ := ih (vis ++ [(r.2.1, sortPos r.2.2)])
              (adds ++ [(r.1, path ++ [mv])]) (h ++ [r.1]) hlt3
            refine ⟨[r.1] ++ g, ?_⟩
            simp only [stepDirsS, tryDirS_eq, htry, stepDirs, hg, hgl3, hnref, hkey, hsol, hdl,
              List.append_assoc]
            simp [hkey, hsol, hdl]

/-- Refinement of the heap BFS loop to the pure one: same answer, and the
heap only ever grows. -/
theorem bfsLoopS_spec (goals : List Pos) :
    ∀ (fuel : Nat) (queue : List (Mat × List Move)) (visited : List (Pos × List Pos))
      (h : Heap), ∃ g,
      bfsLoopS goals fuel queue visited h = (bfsLoop goals fuel queue visited, h ++ g) := by
  intro fuel
  induction fuel with
  | zero =>
    intro queue visited h
    exact ⟨[], by simp [bfsLoopS, bfsLoop]⟩
  | succ fuel ih =>
    intro queue visited h
    match queue with
    | [] => exact ⟨[], by simp [bfsLoopS, bfsLoop]⟩
    | (tup, path) :: rest =>
      have hself : hget (h ++ [tup]) h.length = tup := hget_append_self h tup
      have hlt : h.length < (h ++ [tup]).length := by
        simp
      cases hpp : (get_player_and_boxes_positions tup).1 with
      | none =>
        obtain ⟨g, hg⟩ := ih rest visited (h ++ [tup])
        refine ⟨[tup] ++ g, ?_⟩
        simp only [bfsLoopS, bfsLoop, hself, hpp, hg, List.append_assoc]
      | some pp =>
        obtain ⟨g1, hg1⟩ := stepDirsS_spec goals path pp
          (get_player_and_boxes_positions tup).2 h.length solverDirs visited []
          (h ++ [tup]) hlt
        rw [hself] at hg1
        cases hstep : stepDirs goals tup path pp (get_player_and_boxes_positions tup).2
            solverDirs visited [] with
        | inl sol =>
          refine ⟨[tup] ++ g1, ?_⟩
          simp only [bfsLoopS, bfsLoop, hself, hpp, hg1, hstep, List.append_assoc]
        | inr va =>
          obtain ⟨g2, hg2⟩ := ih (rest ++ va.2) va.1 (h ++ [tup] ++ g1)
          refine ⟨[tup] ++ g1 ++ g2, ?_⟩
          simp only [bfsLoopS, bfsLoop, hself, hpp, hg1, hstep, List.append_assoc]
          simp only [← List.append_assoc] at hg2 ⊢
          exact hg2

/-- Refinement of the heap solver to the pure solver. -/
theorem solve_sokoban_bfs_heap_spec (h : Heap) (ref : Nat) (maxIterations : Nat) :
    ∃ g, solve_sokoban_bfs_heap h ref maxIterations =
      (solveSokobanBfsPure (hget h ref) maxIterations, h ++ g) := by
  unfold solve_sokoban_bfs_heap solveSokobanBfsPure
  cases hpp : (get_player_and_boxes_positions (hget h ref)).1 with
  | none => exact ⟨[], by simp [hpp]⟩
  | some pp =>
    by_cases hb : (get_player_and_boxes_positions (hget h ref)).2 = []
    · exact ⟨[], by simp [hpp, hb]⟩
    · by_cases hgo : get_goal_positions (hget h ref) = []
      · exact ⟨[], by simp [hpp, hb, hgo]⟩
      · by_cases hsol : is_level_solved (get_player_and_boxes_positions (hget h ref)).2
            (get_goal_positions (hget h ref)) = true
        · exact ⟨[], by simp [hpp, hb, hgo, hsol]⟩
        · obtain ⟨g, hg⟩ := bfsLoopS_spec (get_goal_positions (hget h ref)) maxIterations
            [(hget h ref, [])]
            [(pp, sortPos (get_player_and_boxes_positions (hget h ref)).2)] h
          exact ⟨g, by simp [hpp, hb, hgo, hsol, hg]⟩

/-- The full solver computes the pure function of the matrix value. -/
theorem solve_sokoban_bfs_eq_pure (m : Mat) (maxIterations : Nat) :
    solve_sokoban_bfs m maxIterations = solveSokobanBfsPure m maxIterations := by
  obtain ⟨g, hg⟩ := solve_sokoban_bfs_heap_spec [m] 0 maxIterations
  simp [solve_sokoban_bfs, hg, hget]


/-- Claim C9.  The solver and the deadlock classifier are read-only on their
input: after `solve_sokoban_bfs` runs on the matrix stored in any
pre-existing heap cell, every pre-existing heap cell still holds exactly the
matrix it held before the call (the solver works on freshly allocated
copies only), and `has_deadlock` leaves the heap untouched altogether. -/
theorem solver_and_classifier_read_only (h : Heap) (ref maxIterations i : Nat)
    (hi : i < h.length) :
    hget ((solve_sokoban_bfs_heap h ref maxIterations).2) i = hget h i ∧
    (has_deadlock_heap h ref).2 = h := by
  refine ⟨?_, rfl⟩
  obtain ⟨g, hg⟩ := solve_sokoban_bfs_heap_spec h ref maxIterations
  rw [hg]
  exact hget_append_list_lt h g i hi

/-- Witness for C9: the frame property instantiated on a singleton heap
holding the 5x5 fixture. -/
theorem solver_and_classifier_read_only_witness :
    hget ((solve_sokoban_bfs_heap [fallback1] 0 100000).2) 0 = hget [fallback1] 0 ∧
    (has_deadlock_heap [fallback1] 0).2 = [fallback1] :=
  solver_and_classifier_read_only [fallback1] 0 100000 0 (by decide)

/-- Claim C4.  The solver is deterministic: two calls on the same input
state return identical results, whatever heaps the two calls run in (first
conjunct); in particular calling it twice in sequence on the same cell of
the same heap returns the same answer both times (second conjunct). -/
theorem solve_deterministic :
    (∀ (h₁ h₂ : Heap) (r₁ r₂ n : Nat), hget h₁ r₁ = hget h₂ r₂ →
      (solve_sokoban_bfs_heap h₁ r₁ n).1 = (solve_sokoban_bfs_heap h₂ r₂ n).1) ∧
    (∀ (h : Heap) (r n : Nat), r < h.length →
      (solve_sokoban_bfs_heap ((solve_sokoban_bfs_heap h r n).2) r n).1 =
        (solve_sokoban_bfs_heap h r n).1) := by
  have key : ∀ (h₁ h₂ : Heap) (r₁ r₂ n : Nat), hget h₁ r₁ = hget h₂ r₂ →
      (solve_sokoban_bfs_heap h₁ r₁ n).1 = (solve_sokoban_bfs_heap h₂ r₂ n).1 := by
    intro h₁ h₂ r₁ r₂ n hsame
    obtain ⟨g₁, hg₁⟩ := solve_sokoban_bfs_heap_spec h₁ r₁ n
    obtain ⟨g₂, hg₂⟩ := solve_sokoban_bfs_heap_spec h₂ r₂ n
    rw [hg₁, hg₂]
    simp [hsame]
  refine ⟨key, ?_⟩
  intro h r n hr
  apply key
  exact (solver_and_classifier_read_only h r n r hr).1

/-- Witness for C4: determinism instantiated on the 5x5 fixture. -/
theorem solve_deterministic_witness :
    (solve_sokoban_bfs_heap [fallback1] 0 100000).1 =
      (solve_sokoban_bfs_heap [fallback1] 0 100000).1 ∧
    (solve_sokoban_bfs_heap ((solve_sokoban_bfs_heap [fallback1] 0 100000).2) 0 100000).1 =
      (solve_sokoban_bfs_heap [fallback1] 0 100000).1 :=
  ⟨solve_deterministic.1 [fallback1] [fallback1] 0 0 100000 rfl,
   solve_deterministic.2 [fallback1] 0 100000 (by decide)⟩

/-- Claim C10.  `has_deadlock` classifies every degenerate grid - missing
player, no boxes, or no goals - as deadlocked via its early guard. -/
theorem has_deadlock_of_degenerate (m : Mat)
    (h : (get_player_and_boxes_positions m).1 = none ∨
         (get_player_and_boxes_positions m).2 = [] ∨
         get_goal_positions m = []) :
    has_deadlock m = true := by
  unfold has_deadlock
  rcases h with h | h | h
  · simp only [h]
  · simp only [h]
    cases hp : (get_player_and_boxes_positions m).1 <;> simp
  · simp only [h]
    cases hp : (get_player_and_boxes_positions m).1 <;> simp

/-- Witness for C10: a playerless one-cell grid is reported deadlocked. -/
theorem has_deadlock_of_degenerate_witness :
    has_deadlock [[Cell.floor]] = true :=
  has_deadlock_of_degenerate [[Cell.floor]] (Or.inl rfl)


/-- The player slot of the scan fold is a fold of the player-marker
positions in which each marker overwrites the slot. -/
theorem foldl_scanStep_fst (l : List (Pos × Cell)) (acc : Option Pos × List Pos) :
    (l.foldl scanStep acc).1 =
      ((l.filter fun pc => pc.2.isPlayerCell).map (·.1)).foldl (fun _ p => some p) acc.1 := by
  induction l generalizing acc with
  | nil => rfl
  | cons pc l ih =>
    by_cases hp : pc.2.isPlayerCell
    · simp [scanStep, hp, ih]
    · by_cases hb : pc.2.isBoxCell
      · simp [scanStep, hp, hb, ih]
      · simp [scanStep, hp, hb, ih]

/-- A fold in which each element overwrites the accumulator computes the
last element (or keeps the initial value when the list is empty). -/
theorem foldl_overwrite_eq_getLast? (l : List Pos) : ∀ acc : Option Pos,
    l.foldl (fun _ p => some p) acc =
      match l.getLast? with
      | some x => some x
      | none => acc := by
  induction l with
  | nil => intro acc; rfl
  | cons x l ih =>
    intro acc
    rw [List.foldl_cons, ih (some x)]
    cases l with
    | nil => rfl
    | cons y l =>
      cases hgl : (y :: l).getLast? with
      | some z => simp only [List.getLast?_cons_cons, hgl]
      | none => simp at hgl

/-- Claim C5, amended.  `get_player_and_boxes_positions` reports "player not
found" exactly when the grid has no player marker; when one or more markers
exist (including more than one) it returns the position of the last marker
in row-major scan order rather than failing. -/
theorem locate_player_eq_last_marker (m : Mat) :
    (get_player_and_boxes_positions m).1 = (playerMarkers m).getLast? := by
  unfold get_player_and_boxes_positions playerMarkers
  rw [foldl_scanStep_fst, foldl_overwrite_eq_getLast?]
  cases ((cellsEnum m).filter fun pc => pc.2.isPlayerCell).map (·.1) |>.getLast? <;> rfl

/-- Counterexample for C5 as stated: a grid with two player markers on which
`get_player_and_boxes_positions` does not fail but returns the second
marker's position. -/
theorem locate_two_markers_returns_position :
    get_player_and_boxes_positions [[Cell.player, Cell.player]] = (some (0, 1), []) := by
  decide


/-- Claim C7.  `is_valid_level` rejects every level whose player is missing,
whose goals are missing, whose box count differs from its goal count, whose
boxes all start on goals, or in which more than one box starts on a goal;
and it does not reject a level on the ground of exactly one box starting on
a goal (`oneBoxOnGoalLevel` has exactly one such box and is accepted). -/
theorem is_valid_level_rejections :
    (∀ m : Mat,
      ((get_player_and_boxes_positions m).1 = none ∨
       get_goal_positions m = [] ∨
       (get_player_and_boxes_positions m).2.length ≠ (get_goal_positions m).length ∨
       ((get_player_and_boxes_positions m).2 ≠ [] ∧
         ∀ b ∈ (get_player_and_boxes_positions m).2, b ∈ get_goal_positions m) ∨
       1 < (get_player_and_boxes_positions m).2.countP
             (fun b => decide (b ∈ get_goal_positions m))) →
      is_valid_level m = false) ∧
    is_valid_level oneBoxOnGoalLevel = true ∧
    (get_player_and_boxes_positions oneBoxOnGoalLevel).2.countP
      (fun b => decide (b ∈ get_goal_positions oneBoxOnGoalLevel)) = 1 := by
  refine ⟨?_, by decide, by decide⟩
  intro m h
  unfold is_valid_level
  cases hp : (get_player_and_boxes_positions m).1 with
  | none => simp [hp]
  | some p =>
    rcases h with h | h | h | h | h
    · rw [hp] at h
      exact absurd h (by simp)
    · simp [hp, h]
    · simp [hp, h]
    · have hc : (get_player_and_boxes_positions m).2.countP
          (fun b => decide (b ∈ get_goal_positions m)) =
          (get_player_and_boxes_positions m).2.length :=
        List.countP_eq_length.mpr (fun a ha => by simpa using h.2 a ha)
      simp [hp, h.1, hc]
    · by_cases hc : (get_player_and_boxes_positions m).2.countP
          (fun b => decide (b ∈ get_goal_positions m)) =
          (get_player_and_boxes_positions m).2.length
      · simp [hp, hc]
      · simp [hp, hc, h]

/-- Witness for C7: a level with two boxes and one goal is rejected. -/
theorem is_valid_level_rejections_witness :
    is_valid_level twoBoxesOneGoal = false :=
  is_valid_level_rejections.1 twoBoxesOneGoal (Or.inr (Or.inr (Or.inl (by decide))))


/-- Counterexample for C2 as stated.  `prunedSolvable` is solvable (its
eight-move solution replays to a solved state), yet the solver returns
`NotFound`: the corral detector flags the - still solvable - state after
the first push, so the BFS prunes every successor of the initial state.  In
particular the solver does not return a shortest solution on every solvable
input. -/
theorem solve_not_shortest_counterexample :
    solve_sokoban_bfs prunedSolvable 100000 = none ∧
    (replayLegal prunedSolvable prunedSolvableSolution).map isSolvedState = some true := by
  constructor
  · rw [solve_sokoban_bfs_eq_pure]
    decide
  · decide

/-- Claim C2, amended.  On the 5x5 fixture (player `(1,1)`, box `(2,2)`,
goal `(2,3)`, framing wall ring) the solver returns exactly `["D", "R"]`, of
length 2, and no strictly shorter move sequence solves the fixture. -/
theorem solve_shortest_on_fixture :
    solve_sokoban_bfs fallback1 100000 = some [Move.D, Move.R] ∧
    (∀ (s : List Move) (m2 : Mat), replayLegal fallback1 s = some m2 →
      isSolvedState m2 = true → 2 ≤ s.length) := by
  constructor
  · rw [solve_sokoban_bfs_eq_pure]
    decide
  · intro s m2 hrep hsol
    match s with
    | [] =>
      exfalso
      have h0 : isSolvedState fallback1 = false := by decide
      have hm : fallback1 = m2 := by simpa [replayLegal] using hrep
      rw [← hm, h0] at hsol
      cases hsol
    | [mv] =>
      exfalso
      have key : ∀ mv : Move, (replayLegal fallback1 [mv]).map isSolvedState ≠ some true := by
        intro mv
        cases mv <;> decide
      refine key mv ?_
      rw [hrep]
      simp [hsol]
    | a :: b :: t =>
      simp only [List.length_cons]
      omega

/-- Witness for C2 (amended): the returned two-move path itself replays to a
solved state, and the minimality bound applied to it is met with equality. -/
theorem solve_shortest_on_fixture_witness :
    (replayLegal fallback1 [Move.D, Move.R]).map isSolvedState = some true ∧
    2 ≤ ([Move.D, Move.R] : List Move).length := by
  constructor
  · decide
  · have h := solve_shortest_on_fixture.2 [Move.D, Move.R]
    cases hrep : replayLegal fallback1 [Move.D, Move.R] with
    | none => decide
    | some m2 =>
      refine h m2 hrep ?_
      have : (replayLegal fallback1 [Move.D, Move.R]).map isSolvedState = some true := by decide
      rw [hrep] at this
      simpa using this


/-- Popping right after pushing restores the pushed matrix. -/
theorem getLastMatrix_addToHistory_matrix (st : LevelState) (m : Mat) :
    (getLastMatrix (addToHistory st m)).matrix = m := by
  obtain ⟨mat, hist⟩ := st
  unfold addToHistory getLastMatrix
  dsimp only
  split_ifs with hlen
  · cases hist with
    | nil => simp at hlen
    | cons a rest =>
      rw [show ((a :: rest) ++ [m]).tail = rest ++ [m] from rfl]
      rw [List.getLast?_concat]
  · rw [List.getLast?_concat]

/-- Under the history cap, push-then-pop is the identity on the state. -/
theorem getLastMatrix_addToHistory (st : LevelState) (hlen : st.history.length ≤ 99) :
    getLastMatrix (addToHistory st st.matrix) = st := by
  obtain ⟨mat, hist⟩ := st
  simp only at hlen
  unfold addToHistory getLastMatrix
  dsimp only
  have hnot : ¬ 100 < (hist ++ [mat]).length := by
    rw [List.length_append, List.length_singleton]
    omega
  rw [if_neg hnot, List.getLast?_concat]
  simp [List.dropLast_concat]


/-- Claim C6.  `movePlayer` rejects atomically: whenever the destination is
out of bounds, is a wall (or any other non-walkable, non-box cell), or holds
a box whose cell beyond is out of bounds or not `FLOOR`/`GOAL`, the function
returns `False` and the game state (the matrix) is exactly the input state;
the pushed history entry is popped right back, so under the 100-entry
history cap the whole level state is unchanged.  All bounds checks are
modelled exactly as the source performs them: the destination check guards
every cell read, and the double-step check of a push guards the read of the
cell beyond the box. -/
theorem movePlayer_rejection_atomic (st : LevelState) (d : Move) (x y : Nat)
    (hp : getPlayerPosition st.matrix = some (x, y))
    (hrej :
      ¬ xyInBounds st.matrix (destXY x y d) ∨
      (xyInBounds st.matrix (destXY x y d) ∧
        cellAt st.matrix (destXY x y d).2.toNat (destXY x y d).1.toNat = .wall) ∨
      (xyInBounds st.matrix (destXY x y d) ∧
        (cellAt st.matrix (destXY x y d).2.toNat (destXY x y d).1.toNat).isBoxCell ∧
        (¬ xyInBounds st.matrix (beyondXY x y d) ∨
          ¬ (cellAt st.matrix (beyondXY x y d).2.toNat (beyondXY x y d).1.toNat = .floor ∨
             cellAt st.matrix (beyondXY x y d).2.toNat (beyondXY x y d).1.toNat = .goal)))) :
    (movePlayer st d).2 = false ∧
    (movePlayer st d).1.matrix = st.matrix ∧
    (st.history.length ≤ 99 → (movePlayer st d).1 = st) := by
  have hkey : movePlayer st d = (getLastMatrix (addToHistory st st.matrix), false) := by
    unfold movePlayer
    dsimp only
    rw [hp]
    dsimp only
    rcases hrej with h | ⟨hin, hw⟩ | ⟨hin, hbx, hbad⟩
    · rw [if_neg h]
    · rw [if_pos hin, hw]
      simp [Cell.isBoxCell]
    · have hbx2 : cellAt st.matrix (destXY x y d).2.toNat (destXY x y d).1.toNat = .box ∨
          cellAt st.matrix (destXY x y d).2.toNat (destXY x y d).1.toNat = .boxOnGoal := by
        revert hbx
        unfold Cell.isBoxCell
        cases cellAt st.matrix (destXY x y d).2.toNat (destXY x y d).1.toNat <;> simp
      have h1 : ¬ (cellAt st.matrix (destXY x y d).2.toNat (destXY x y d).1.toNat = .floor ∨
          cellAt st.matrix (destXY x y d).2.toNat (destXY x y d).1.toNat = .goal) := by
        rcases hbx2 with h2 | h2 <;> rw [h2] <;> simp
      rw [if_pos hin, if_neg h1, if_pos hbx2]
      rcases hbad with h3 | h3
      · rw [if_neg h3]
      · by_cases h4 : xyInBounds st.matrix (beyondXY x y d)
        · rw [if_pos h4, if_neg h3]
        · rw [if_neg h4]
  refine ⟨by rw [hkey], ?_, ?_⟩
  · rw [hkey]
    exact getLastMatrix_addToHistory_matrix st st.matrix
  · intro hlen
    rw [hkey]
    exact getLastMatrix_addToHistory st hlen

/-- Witness for C6: in the 5x5 fixture a move up from `(1,1)` runs into the
wall ring and leaves the state unchanged. -/
theorem movePlayer_rejection_atomic_witness :
    (movePlayer ⟨fallback1, []⟩ Move.U).2 = false ∧
    (movePlayer ⟨fallback1, []⟩ Move.U).1.matrix = (⟨fallback1, []⟩ : LevelState).matrix ∧
    ((⟨fallback1, []⟩ : LevelState).history.length ≤ 99 →
      (movePlayer ⟨fallback1, []⟩ Move.U).1 = ⟨fallback1, []⟩) :=
  movePlayer_rejection_atomic ⟨fallback1, []⟩ Move.U 1 1 (by decide)
    (Or.inr (Or.inl (by constructor <;> decide)))


/-! ### Enumeration infrastructure -/

theorem mem_rowEnum (r : Nat) (x : Cell) (pr pc : Nat) : ∀ (row : List Cell) (c0 : Nat),
    ((pr, pc), x) ∈ rowEnum r c0 row ↔
      ∃ j, j < row.length ∧ pr = r ∧ pc = c0 + j ∧ row.getD j .wall = x := by
  intro row
  induction row with
  | nil => intro c0; simp [rowEnum]
  | cons y xs ih =>
    intro c0
    simp only [rowEnum, List.mem_cons, ih (c0 + 1), Prod.mk.injEq, List.length_cons]
    constructor
    · rintro (⟨⟨h1, h2⟩, h3⟩ | ⟨j, hj, h1, h2, h3⟩)
      · exact ⟨0, by omega, h1, by omega, by simpa using h3.symm⟩
      · exact ⟨j + 1, by omega, h1, by omega, by simpa using h3⟩
    · rintro ⟨j, hj, h1, h2, h3⟩
      cases j with
      | zero =>
        left
        simp only [List.getD_cons_zero] at h3
        exact ⟨⟨h1, by omega⟩, h3.symm⟩
      | succ k =>
        right
        exact ⟨k, by omega, h1, by omega, by simpa using h3⟩

theorem rowEnum_fst_row (r : Nat) : ∀ (row : List Cell) (c0 : Nat) (qc : Pos × Cell),
    qc ∈ rowEnum r c0 row → qc.1.1 = r ∧ c0 ≤ qc.1.2 := by
  intro row
  induction row with
  | nil => intro c0 qc h; simp [rowEnum] at h
  | cons y xs ih =>
    intro c0 qc h
    rcases List.mem_cons.mp h with h | h
    · rw [h]
      simp
    · have := ih (c0 + 1) qc h
      omega

theorem cellsEnumAux_fst_ge (m : Mat) : ∀ (r0 : Nat) (qc : Pos × Cell),
    qc ∈ cellsEnumAux r0 m → r0 ≤ qc.1.1 := by
  induction m with
  | nil => intro r0 qc h; simp [cellsEnumAux] at h
  | cons row rows ih =>
    intro r0 qc h
    rcases List.mem_append.mp h with h | h
    · exact (rowEnum_fst_row r0 row 0 qc h).1.ge
    · have := ih (r0 + 1) qc h
      omega

theorem mem_cellsEnumAux (x : Cell) (pr pc : Nat) : ∀ (m : Mat) (r0 : Nat),
    ((pr, pc), x) ∈ cellsEnumAux r0 m ↔
      ∃ i, i < m.length ∧ pr = r0 + i ∧ pc < (m.getD i []).length ∧
        (m.getD i []).getD pc .wall = x := by
  intro m
  induction m with
  | nil => intro r0; simp [cellsEnumAux]
  | cons row rows ih =>
    intro r0
    simp only [cellsEnumAux, List.mem_append, mem_rowEnum, ih (r0 + 1), List.length_cons]
    constructor
    · rintro (⟨j, hj, h1, h2, h3⟩ | ⟨i, hi, h1, h2, h3⟩)
      · refine ⟨0, by omega, by omega, ?_, ?_⟩
        · subst h2
          simpa using hj
        · subst h2
          simpa using h3
      · exact ⟨i + 1, by omega, by omega, by simpa using h2, by simpa using h3⟩
    · rintro ⟨i, hi, h1, h2, h3⟩
      cases i with
      | zero =>
        left
        simp only [List.getD_cons_zero] at h2 h3
        exact ⟨pc, h2, by omega, by omega, h3⟩
      | succ k =>
        right
        exact ⟨k, by omega, by omega, by simpa using h2, by simpa using h3⟩

/-- Membership in the enumeration is exactly "in bounds and holding that
cell". -/
theorem mem_cellsEnum (m : Mat) (p : Pos) (x : Cell) :
    (p, x) ∈ cellsEnum m ↔
      p.1 < numRows m ∧ p.2 < rowLen m p.1 ∧ cellAt m p.1 p.2 = x := by
  obtain ⟨pr, pc⟩ := p
  rw [cellsEnum, mem_cellsEnumAux]
  unfold numRows rowLen cellAt
  constructor
  · rintro ⟨i, hi, h1, h2, h3⟩
    have : pr = i := by omega
    subst this
    exact ⟨hi, h2, h3⟩
  · rintro ⟨hi, h2, h3⟩
    exact ⟨pr, hi, by omega, h2, h3⟩


theorem nodup_fst_rowEnum (r : Nat) : ∀ (row : List Cell) (c0 : Nat),
    ((rowEnum r c0 row).map Prod.fst).Nodup := by
  intro row
  induction row with
  | nil => intro c0; simp [rowEnum]
  | cons y xs ih =>
    intro c0
    simp only [rowEnum, List.map_cons, List.nodup_cons]
    refine ⟨?_, ih (c0 + 1)⟩
    intro hmem
    obtain ⟨qc, hqc, hq⟩ := List.mem_map.mp hmem
    have := rowEnum_fst_row r xs (c0 + 1) qc hqc
    rw [hq] at this
    omega

theorem nodup_fst_cellsEnumAux : ∀ (m : Mat) (r0 : Nat),
    ((cellsEnumAux r0 m).map Prod.fst).Nodup := by
  intro m
  induction m with
  | nil => intro r0; simp [cellsEnumAux]
  | cons row rows ih =>
    intro r0
    simp only [cellsEnumAux, List.map_append]
    refine List.Nodup.append (nodup_fst_rowEnum r0 row 0) (ih (r0 + 1)) ?_
    intro q h1 h2
    obtain ⟨qc1, hm1, he1⟩ := List.mem_map.mp h1
    obtain ⟨qc2, hm2, he2⟩ := List.mem_map.mp h2
    have f1 := rowEnum_fst_row r0 row 0 qc1 hm1
    have f2 := cellsEnumAux_fst_ge rows (r0 + 1) qc2 hm2
    rw [he1] at f1
    rw [he2] at f2
    omega

theorem nodup_fst_cellsEnum (m : Mat) : ((cellsEnum m).map Prod.fst).Nodup :=
  nodup_fst_cellsEnumAux m 0

/-- Counting the matches at one fixed position: at most one enumeration
entry carries a given position, so the count is the truth value of "some
entry at that position matches". -/
theorem countP_fst_eq_of_nodup (q : Pos) (p : Cell → Bool) : ∀ (l : List (Pos × Cell)),
    (l.map Prod.fst).Nodup →
    l.countP (fun qc => decide (qc.1 = q) && p qc.2) =
      if l.any (fun qc => decide (qc.1 = q) && p qc.2) = true then 1 else 0 := by
  intro l
  induction l with
  | nil => intro _; simp
  | cons qc l ih =>
    intro hnd
    simp only [List.map_cons, List.nodup_cons] at hnd
    rw [List.countP_cons, ih hnd.2, List.any_cons]
    by_cases hq : qc.1 = q
    · have hany : l.any (fun qc => decide (qc.1 = q) && p qc.2) = false := by
        rw [List.any_eq_false]
        intro a ha
        simp only [Bool.and_eq_true, decide_eq_true_eq, not_and]
        intro haq _
        exact hnd.1 (by rw [hq, ← haq]; exact List.mem_map_of_mem Prod.fst ha)
      rw [hany]
      simp only [hq, decide_True, Bool.true_and, Bool.or_false]
      by_cases hp : p qc.2 = true <;> simp [hp]
    · simp only [hq, decide_False, Bool.false_and, Bool.false_or, if_neg]
      simp

/-- Replacing the cell at one position changes the count of a predicate by
exactly the contribution swap at that position (stated without subtraction). -/
theorem countP_map_update (q : Pos) (v : Cell) (p : Cell → Bool) : ∀ (l : List (Pos × Cell)),
    (l.map fun qc => if qc.1 = q then (q, v) else qc).countP (fun qc => p qc.2)
      + l.countP (fun qc => decide (qc.1 = q) && p qc.2)
    = l.countP (fun qc => p qc.2) + l.countP (fun qc => decide (qc.1 = q) && p v) := by
  intro l
  induction l with
  | nil => simp
  | cons qc l ih =>
    simp only [List.map_cons, List.countP_cons]
    by_cases hq : qc.1 = q
    · rw [if_pos hq]
      have h2 : (decide (qc.1 = q) && p qc.2) = p qc.2 := by
        rw [decide_eq_true hq]
        simp
      have h3 : (decide (qc.1 = q) && p v) = p v := by
        rw [decide_eq_true hq]
        simp
      rw [h2, h3]
      have h4 : p (q, v).2 = p v := rfl
      rw [h4]
      omega
    · rw [if_neg hq]
      have h2 : (decide (qc.1 = q) && p qc.2) = false := by
        rw [decide_eq_false hq]
        simp
      have h3 : (decide (qc.1 = q) && p v) = false := by
        rw [decide_eq_false hq]
        simp
      rw [h2, h3]
      omega


theorem map_update_id (q : Pos) (v : Cell) (l : List (Pos × Cell))
    (h : ∀ qc ∈ l, qc.1 ≠ q) :
    (l.map fun qc => if qc.1 = q then (q, v) else qc) = l := by
  induction l with
  | nil => rfl
  | cons qc l ih =>
    simp only [List.map_cons]
    rw [if_neg (h qc (List.mem_cons_self qc l)), ih]
    intro a ha
    exact h a (List.mem_cons_of_mem _ ha)

theorem rowEnum_set (r : Nat) (v : Cell) : ∀ (row : List Cell) (j c0 : Nat),
    rowEnum r c0 (row.set j v) =
      (rowEnum r c0 row).map fun qc => if qc.1 = (r, c0 + j) then ((r, c0 + j), v) else qc := by
  intro row
  induction row with
  | nil => intro j c0; simp [rowEnum]
  | cons y xs ih =>
    intro j c0
    cases j with
    | zero =>
      simp only [List.set_cons_zero, rowEnum, List.map_cons, Nat.add_zero]
      have hid : (List.map (fun qc => if qc.1 = ((r, c0) : Pos) then ((r, c0), v) else qc)
          (rowEnum r (c0 + 1) xs)) = rowEnum r (c0 + 1) xs := by
        apply map_update_id
        intro qc hqc he
        have := rowEnum_fst_row r xs (c0 + 1) qc hqc
        rw [he] at this
        omega
      rw [hid]
      simp
    | succ k =>
      simp only [List.set_cons_succ, rowEnum, List.map_cons]
      have hne : ((r, c0) : Pos) ≠ (r, c0 + (k + 1)) := by
        intro he
        have h2 := congrArg Prod.snd he
        simp at h2
      rw [if_neg hne, ih k (c0 + 1)]
      have harith : c0 + 1 + k = c0 + (k + 1) := by omega
      rw [harith]

theorem cellsEnumAux_set (v : Cell) : ∀ (m : Mat) (i r0 c : Nat),
    cellsEnumAux r0 (m.set i ((m.getD i []).set c v)) =
      (cellsEnumAux r0 m).map fun qc => if qc.1 = (r0 + i, c) then ((r0 + i, c), v) else qc := by
  intro m
  induction m with
  | nil => intro i r0 c; simp [cellsEnumAux]
  | cons row rows ih =>
    intro i r0 c
    cases i with
    | zero =>
      simp only [List.getD_cons_zero, List.set_cons_zero, cellsEnumAux, List.map_append,
        Nat.add_zero]
      have hid : (List.map (fun qc => if qc.1 = ((r0, c) : Pos) then ((r0, c), v) else qc)
          (cellsEnumAux (r0 + 1) rows)) = cellsEnumAux (r0 + 1) rows := by
        apply map_update_id
        intro qc hqc he
        have := cellsEnumAux_fst_ge rows (r0 + 1) qc hqc
        rw [he] at this
        omega
      rw [hid]
      have hrow := rowEnum_set r0 v row c 0
      simp only [Nat.zero_add] at hrow
      rw [hrow]
    | succ k =>
      simp only [List.getD_cons_succ, List.set_cons_succ, cellsEnumAux, List.map_append]
      have hid : (List.map (fun qc => if qc.1 = ((r0 + (k + 1), c) : Pos)
            then ((r0 + (k + 1), c), v) else qc)
          (rowEnum r0 0 row)) = rowEnum r0 0 row := by
        apply map_update_id
        intro qc hqc he
        have := (rowEnum_fst_row r0 row 0 qc hqc).1
        rw [he] at this
        omega
      rw [hid, ih k (r0 + 1) c]
      have harith : r0 + 1 + k = r0 + (k + 1) := by omega
      rw [harith]

/-- Enumeration of a grid after a single cell write: the same entries with
the cell at the written position replaced. -/
theorem cellsEnum_setCell (m : Mat) (r c : Nat) (v : Cell) :
    cellsEnum (setCell m r c v) =
      (cellsEnum m).map fun qc => if qc.1 = (r, c) then ((r, c), v) else qc := by
  unfold cellsEnum setCell
  have := cellsEnumAux_set v m r 0 c
  simpa using this


/-- Truth value of "position `q` is in bounds and its cell satisfies `p`",
read off from the enumeration. -/
theorem any_fst_cellsEnum (m : Mat) (q : Pos) (p : Cell → Bool) :
    (cellsEnum m).any (fun qc => decide (qc.1 = q) && p qc.2) =
      decide (q.1 < numRows m ∧ q.2 < rowLen m q.1 ∧ p (cellAt m q.1 q.2) = true) := by
  by_cases h : q.1 < numRows m ∧ q.2 < rowLen m q.1 ∧ p (cellAt m q.1 q.2) = true
  · rw [decide_eq_true h]
    rw [List.any_eq_true]
    exact ⟨(q, cellAt m q.1 q.2), (mem_cellsEnum m q _).mpr ⟨h.1, h.2.1, rfl⟩,
      by simp [h.2.2]⟩
  · rw [decide_eq_false h]
    rw [List.any_eq_false]
    rintro ⟨qp, x⟩ hmem
    simp only [Bool.and_eq_true, decide_eq_true_eq, not_and]
    rintro he hp
    rw [he] at hmem
    obtain ⟨h1, h2, h3⟩ := (mem_cellsEnum m q x).mp hmem
    exact h ⟨h1, h2, by rw [h3]; exact hp⟩

/-- Count of matches at a fixed position, in bounds/cell terms. -/
theorem countP_fst_cellsEnum (m : Mat) (qr qc0 : Nat) (p : Cell → Bool) :
    (cellsEnum m).countP (fun qc => decide (qc.1 = (qr, qc0)) && p qc.2) =
      if qr < numRows m ∧ qc0 < rowLen m qr ∧ p (cellAt m qr qc0) = true then 1 else 0 := by
  rw [countP_fst_eq_of_nodup (qr, qc0) p (cellsEnum m) (nodup_fst_cellsEnum m),
    any_fst_cellsEnum]
  by_cases h : qr < numRows m ∧ qc0 < rowLen m qr ∧ p (cellAt m qr qc0) = true <;> simp [h]

/-- Special case of `countP_fst_cellsEnum` for a constant predicate value. -/
theorem countP_fst_cellsEnum_const (m : Mat) (qr qc0 : Nat) (b : Bool) :
    (cellsEnum m).countP (fun qc => decide (qc.1 = (qr, qc0)) && b) =
      if qr < numRows m ∧ qc0 < rowLen m qr ∧ b = true then 1 else 0 := by
  have h := countP_fst_cellsEnum m qr qc0 (fun _ => b)
  simpa using h

/-- Behaviour of a cell-count under a single cell write, stated without
subtraction: the new count plus the old cell's contribution equals the old
count plus the written value's contribution (both weighted by the position
being in bounds). -/
theorem countP_cells_setCell (m : Mat) (r c : Nat) (v : Cell) (p : Cell → Bool) :
    (cellsEnum (setCell m r c v)).countP (fun qc => p qc.2)
      + (if r < numRows m ∧ c < rowLen m r ∧ p (cellAt m r c) = true then 1 else 0)
    = (cellsEnum m).countP (fun qc => p qc.2)
      + (if r < numRows m ∧ c < rowLen m r ∧ p v = true then 1 else 0) := by
  rw [cellsEnum_setCell]
  have hupd := countP_map_update (r, c) v p (cellsEnum m)
  have h1 := countP_fst_cellsEnum m r c p
  have h2 := countP_fst_cellsEnum_const m r c (p v)
  rw [h1, h2] at hupd
  by_cases hb1 : r < numRows m ∧ c < rowLen m r ∧ p (cellAt m r c) = true
  · by_cases hb2 : r < numRows m ∧ c < rowLen m r ∧ p v = true
    · rw [if_pos hb1, if_pos hb2] at hupd ⊢
      exact hupd
    · rw [if_pos hb1, if_neg hb2] at hupd ⊢
      exact hupd
  · by_cases hb2 : r < numRows m ∧ c < rowLen m r ∧ p v = true
    · rw [if_neg hb1, if_pos hb2] at hupd ⊢
      exact hupd
    · rw [if_neg hb1, if_neg hb2] at hupd ⊢
      exact hupd

/-- Getting back an updated list entry. -/
theorem getD_set_self {α : Type} (l : List α) (i : Nat) (a d : α) (hi : i < l.length) :
    (l.set i a).getD i d = a := by
  rw [List.getD_eq_getElem?_getD, List.getElem?_set_self hi]
  rfl

/-- Getting an untouched list entry. -/
theorem getD_set_ne {α : Type} (l : List α) (i j : Nat) (a d : α) (h : i ≠ j) :
    (l.set i a).getD j d = l.getD j d := by
  rw [List.getD_eq_getElem?_getD, List.getElem?_set_ne h, ← List.getD_eq_getElem?_getD]

/-- Shape preservation of a cell write. -/
theorem numRows_setCell (m : Mat) (r c : Nat) (v : Cell) :
    numRows (setCell m r c v) = numRows m := by
  simp [numRows, setCell]

theorem rowLen_setCell (m : Mat) (r c : Nat) (v : Cell) (i : Nat) :
    rowLen (setCell m r c v) i = rowLen m i := by
  unfold rowLen setCell
  by_cases hir : i = r
  · subst hir
    by_cases hi : i < m.length
    · rw [getD_set_self m i _ [] hi, List.length_set]
    · rw [List.set_eq_of_length_le (Nat.le_of_not_lt hi)]
  · rw [getD_set_ne m r i _ [] (fun h => hir h.symm)]

/-- Reading the written cell back. -/
theorem cellAt_setCell_same (m : Mat) (r c : Nat) (v : Cell)
    (hr : r < numRows m) (hc : c < rowLen m r) :
    cellAt (setCell m r c v) r c = v := by
  unfold cellAt setCell
  rw [getD_set_self m r _ [] (by simpa [numRows] using hr),
    getD_set_self (m.getD r []) c v .wall (by simpa [rowLen] using hc)]

/-- Reading any other cell is unaffected by the write. -/
theorem cellAt_setCell_ne (m : Mat) (r c : Nat) (v : Cell) (r2 c2 : Nat)
    (h : (r2, c2) ≠ (r, c)) :
    cellAt (setCell m r c v) r2 c2 = cellAt m r2 c2 := by
  unfold cellAt setCell
  by_cases hr2 : r2 = r
  · subst hr2
    have hc : c2 ≠ c := fun hc => h (by rw [hc])
    by_cases hi : r2 < m.length
    · rw [getD_set_self m r2 _ [] hi, getD_set_ne (m.getD r2 []) c c2 v .wall
        (fun he => hc he.symm)]
    · rw [List.set_eq_of_length_le (Nat.le_of_not_lt hi)]
  · rw [getD_set_ne m r r2 _ [] (fun he => hr2 he.symm)]


/-- The box slot of the scan fold collects the box-cell positions. -/
theorem foldl_scanStep_snd (l : List (Pos × Cell)) (acc : Option Pos × List Pos) :
    (l.foldl scanStep acc).2 =
      acc.2 ++ (l.filter fun qc => qc.2.isBoxCell).map (·.1) := by
  induction l generalizing acc with
  | nil => simp
  | cons qc l ih =>
    by_cases hp : qc.2.isPlayerCell
    · have hb : qc.2.isBoxCell = false := by
        revert hp
        unfold Cell.isPlayerCell Cell.isBoxCell
        cases qc.2 <;> simp
      simp [scanStep, hp, hb, ih]
    · by_cases hb : qc.2.isBoxCell
      · simp [scanStep, hp, hb, ih]
      · simp [scanStep, hp, hb, ih]

/-- The scanned box positions are the box-cell positions in scan order. -/
theorem scan_boxes_eq (m : Mat) :
    (get_player_and_boxes_positions m).2 =
      ((cellsEnum m).filter fun qc => qc.2.isBoxCell).map (·.1) := by
  unfold get_player_and_boxes_positions
  rw [foldl_scanStep_snd]
  simp

/-- Membership in the scanned box list. -/
theorem mem_scan_boxes (m : Mat) (q : Pos) :
    q ∈ (get_player_and_boxes_positions m).2 ↔
      q.1 < numRows m ∧ q.2 < rowLen m q.1 ∧ (cellAt m q.1 q.2).isBoxCell = true := by
  rw [scan_boxes_eq]
  constructor
  · intro h
    obtain ⟨qc, hqc, he⟩ := List.mem_map.mp h
    obtain ⟨hmem, hbox⟩ := List.mem_filter.mp hqc
    obtain ⟨q0, x⟩ := qc
    simp only at he
    subst he
    obtain ⟨h1, h2, h3⟩ := (mem_cellsEnum m q0 x).mp hmem
    exact ⟨h1, h2, by rw [h3]; exact hbox⟩
  · rintro ⟨h1, h2, h3⟩
    exact List.mem_map.mpr ⟨(q, cellAt m q.1 q.2),
      List.mem_filter.mpr ⟨(mem_cellsEnum m q _).mpr ⟨h1, h2, rfl⟩, h3⟩, rfl⟩

/-- Membership in the scanned goal list. -/
theorem mem_goal_positions (m : Mat) (q : Pos) :
    q ∈ get_goal_positions m ↔
      q.1 < numRows m ∧ q.2 < rowLen m q.1 ∧ (cellAt m q.1 q.2).isGoalCell = true := by
  unfold get_goal_positions
  constructor
  · intro h
    obtain ⟨qc, hqc, he⟩ := List.mem_map.mp h
    obtain ⟨hmem, hgoal⟩ := List.mem_filter.mp hqc
    obtain ⟨q0, x⟩ := qc
    simp only at he
    subst he
    obtain ⟨h1, h2, h3⟩ := (mem_cellsEnum m q0 x).mp hmem
    exact ⟨h1, h2, by rw [h3]; exact hgoal⟩
  · rintro ⟨h1, h2, h3⟩
    exact List.mem_map.mpr ⟨(q, cellAt m q.1 q.2),
      List.mem_filter.mpr ⟨(mem_cellsEnum m q _).mpr ⟨h1, h2, rfl⟩, h3⟩, rfl⟩

/-- The scanned player position holds a player marker, in bounds. -/
theorem scan_player_cell (m : Mat) (pp : Pos)
    (h : (get_player_and_boxes_positions m).1 = some pp) :
    pp.1 < numRows m ∧ pp.2 < rowLen m pp.1 ∧ (cellAt m pp.1 pp.2).isPlayerCell = true := by
  rw [locate_player_eq_last_marker] at h
  have hmem : pp ∈ playerMarkers m := List.mem_of_mem_getLast? h
  unfold playerMarkers at hmem
  obtain ⟨qc, hqc, he⟩ := List.mem_map.mp hmem
  obtain ⟨hmem2, hpl⟩ := List.mem_filter.mp hqc
  obtain ⟨q0, x⟩ := qc
  simp only at he
  subst he
  obtain ⟨h1, h2, h3⟩ := (mem_cellsEnum m q0 x).mp hmem2
  exact ⟨h1, h2, by rw [h3]; exact hpl⟩

/-- The number of scanned boxes is the box-cell count. -/
theorem scan_boxes_length (m : Mat) :
    (get_player_and_boxes_positions m).2.length = boxCount m := by
  rw [scan_boxes_eq, List.length_map, boxCount, List.countP_eq_length_filter]

/-- The number of scanned goals is the goal-cell count. -/
theorem goal_positions_length (m : Mat) :
    (get_goal_positions m).length = goalCount m := by
  unfold get_goal_positions goalCount
  rw [List.length_map, List.countP_eq_length_filter]

/-- The scanned goal list has no duplicate positions. -/
theorem nodup_goal_positions (m : Mat) : (get_goal_positions m).Nodup := by
  unfold get_goal_positions
  have hsub : (((cellsEnum m).filter fun qc => qc.2.isGoalCell).map (·.1)).Sublist
      ((cellsEnum m).map Prod.fst) :=
    List.Sublist.map _ ((cellsEnum m).filter_sublist)
  exact hsub.nodup (nodup_fst_cellsEnum m)


/-- A non-wall reading is an in-bounds reading (out-of-bounds reads default
to `wall`). -/
theorem cellAt_ne_wall_bounds (m : Mat) (r c : Nat) (h : cellAt m r c ≠ .wall) :
    r < numRows m ∧ c < rowLen m r := by
  by_cases hr : r < numRows m
  · by_cases hc : c < rowLen m r
    · exact ⟨hr, hc⟩
    · exfalso
      apply h
      unfold cellAt
      rw [List.getD_eq_getElem?_getD (m.getD r []) c .wall,
        List.getElem?_eq_none (Nat.le_of_not_lt (by simpa [rowLen] using hc))]
      rfl
  · exfalso
    apply h
    unfold cellAt
    have hnone : m.getD r [] = [] := by
      rw [List.getD_eq_getElem?_getD,
        List.getElem?_eq_none (Nat.le_of_not_lt (by simpa [numRows] using hr))]
      rfl
    rw [hnone]
    rfl

/-- A write that does not change the predicate's value at the written cell
leaves the count unchanged. -/
theorem countP_cells_setCell_same (m : Mat) (r c : Nat) (v : Cell) (p : Cell → Bool)
    (hold : p (cellAt m r c) = p v) :
    (cellsEnum (setCell m r c v)).countP (fun qc => p qc.2) =
      (cellsEnum m).countP (fun qc => p qc.2) := by
  have h := countP_cells_setCell m r c v p
  rw [hold] at h
  omega

/-- Facts about the two-cell write of a simple (non-push) move: shape,
walls, goal-ness and box-ness of every cell are preserved. -/
theorem simple_write_facts (m m1 m2 : Mat) (pp1 pp2 np1 np2 : Nat)
    (hnp : cellAt m np1 np2 = .floor ∨ cellAt m np1 np2 = .goal)
    (hpp : (cellAt m pp1 pp2).isPlayerCell = true)
    (hne : ((np1, np2) : Pos) ≠ (pp1, pp2))
    (hm1 : m1 = setCell m np1 np2
      (if cellAt m np1 np2 = .goal then .playerOnGoal else .player))
    (hm2 : m2 = setCell m1 pp1 pp2
      (if cellAt m1 pp1 pp2 = .playerOnGoal then .goal else .floor)) :
    numRows m2 = numRows m ∧ (∀ i, rowLen m2 i = rowLen m i) ∧
    (∀ r c, (cellAt m2 r c = .wall ↔ cellAt m r c = .wall)) ∧
    (∀ r c, (cellAt m2 r c).isGoalCell = (cellAt m r c).isGoalCell) ∧
    (∀ r c, (cellAt m2 r c).isBoxCell = (cellAt m r c).isBoxCell) ∧
    boxCount m2 = boxCount m ∧ goalCount m2 = goalCount m := by
  have hnpw : cellAt m np1 np2 ≠ .wall := by
    rcases hnp with h | h <;> rw [h] <;> intro hcon <;> cases hcon
  have hppw : cellAt m pp1 pp2 ≠ .wall := by
    intro hcon
    rw [hcon] at hpp
    cases hpp
  have hnpb := cellAt_ne_wall_bounds m np1 np2 hnpw
  have hppb := cellAt_ne_wall_bounds m pp1 pp2 hppw
  have hm1pp : cellAt m1 pp1 pp2 = cellAt m pp1 pp2 := by
    rw [hm1]
    exact cellAt_setCell_ne m np1 np2 _ pp1 pp2 (Ne.symm hne)
  have hrows : numRows m2 = numRows m := by
    rw [hm2, hm1, numRows_setCell, numRows_setCell]
  have hlens : ∀ i, rowLen m2 i = rowLen m i := by
    intro i
    rw [hm2, hm1, rowLen_setCell, rowLen_setCell]
  have hbc : boxCount m2 = boxCount m := by
    have hold1 : (cellAt m np1 np2).isBoxCell =
        (if cellAt m np1 np2 = Cell.goal then Cell.playerOnGoal
          else Cell.player).isBoxCell := by
      rcases hnp with h | h <;> rw [h] <;> simp [Cell.isBoxCell]
    have h1 := countP_cells_setCell_same m np1 np2 _ (fun x => x.isBoxCell) hold1
    rw [← hm1] at h1
    have hold2 : (cellAt m1 pp1 pp2).isBoxCell =
        (if cellAt m1 pp1 pp2 = Cell.playerOnGoal then Cell.goal
          else Cell.floor).isBoxCell := by
      rw [hm1pp]
      revert hpp
      cases cellAt m pp1 pp2 <;> simp [Cell.isPlayerCell, Cell.isBoxCell]
    have h2 := countP_cells_setCell_same m1 pp1 pp2 _ (fun x => x.isBoxCell) hold2
    rw [← hm2] at h2
    calc boxCount m2 = boxCount m1 := by simpa [boxCount] using h2
      _ = boxCount m := by simpa [boxCount] using h1
  have hgc : goalCount m2 = goalCount m := by
    have hold1 : (cellAt m np1 np2).isGoalCell =
        (if cellAt m np1 np2 = Cell.goal then Cell.playerOnGoal
          else Cell.player).isGoalCell := by
      rcases hnp with h | h <;> rw [h] <;> simp [Cell.isGoalCell]
    have h1 := countP_cells_setCell_same m np1 np2 _ (fun x => x.isGoalCell) hold1
    rw [← hm1] at h1
    have hold2 : (cellAt m1 pp1 pp2).isGoalCell =
        (if cellAt m1 pp1 pp2 = Cell.playerOnGoal then Cell.goal
          else Cell.floor).isGoalCell := by
      rw [hm1pp]
      revert hpp
      cases cellAt m pp1 pp2 <;> simp [Cell.isPlayerCell, Cell.isGoalCell]
    have h2 := countP_cells_setCell_same m1 pp1 pp2 _ (fun x => x.isGoalCell) hold2
    rw [← hm2] at h2
    calc goalCount m2 = goalCount m1 := by simpa [goalCount] using h2
      _ = goalCount m := by simpa [goalCount] using h1
  have hmain : (∀ r c, (cellAt m2 r c = .wall ↔ cellAt m r c = .wall)) ∧
      (∀ r c, (cellAt m2 r c).isGoalCell = (cellAt m r c).isGoalCell) ∧
      (∀ r c, (cellAt m2 r c).isBoxCell = (cellAt m r c).isBoxCell) := by
    refine ⟨?_, ?_, ?_⟩
    all_goals
      intro r c
      by_cases hq1 : ((r, c) : Pos) = (pp1, pp2)
      case pos =>
        rw [Prod.mk.injEq] at hq1
        obtain ⟨rfl, rfl⟩ := hq1
        have h1 : cellAt m2 r c =
            (if cellAt m1 r c = .playerOnGoal then .goal else .floor) := by
          rw [hm2]
          exact cellAt_setCell_same m1 r c _ (by rw [hm1, numRows_setCell]; exact hppb.1)
            (by rw [hm1, rowLen_setCell]; exact hppb.2)
        rw [h1, hm1pp]
        revert hpp
        cases hcell : cellAt m r c <;> simp [Cell.isPlayerCell, Cell.isGoalCell, Cell.isBoxCell]
      case neg =>
        by_cases hq2 : ((r, c) : Pos) = (np1, np2)
        case pos =>
          rw [Prod.mk.injEq] at hq2
          obtain ⟨rfl, rfl⟩ := hq2
          have h1 : cellAt m2 r c = cellAt m1 r c := by
            rw [hm2]
            exact cellAt_setCell_ne m1 pp1 pp2 _ r c hq1
          have h2 : cellAt m1 r c =
              (if cellAt m r c = .goal then .playerOnGoal else .player) := by
            rw [hm1]
            exact cellAt_setCell_same m r c _ hnpb.1 hnpb.2
          rw [h1, h2]
          rcases hnp with h | h <;> rw [h] <;>
            simp [Cell.isPlayerCell, Cell.isGoalCell, Cell.isBoxCell]
        case neg =>
          have h1 : cellAt m2 r c = cellAt m1 r c := by
            rw [hm2]
            exact cellAt_setCell_ne m1 pp1 pp2 _ r c hq1
          have h2 : cellAt m1 r c = cellAt m r c := by
            rw [hm1]
            exact cellAt_setCell_ne m np1 np2 _ r c hq2
          rw [h1, h2]
  exact ⟨hrows, hlens, hmain.1, hmain.2.1, hmain.2.2, hbc, hgc⟩


/-- Facts about the three-cell write of a push: shape, walls and goal-ness
of every cell are preserved; the only cell that loses its box is the pushed
one (`np`); and the box and goal counts are preserved. -/
theorem push_write_facts (m m1 m2 m3 : Mat) (pp1 pp2 np1 np2 bp1 bp2 : Nat)
    (hnp : (cellAt m np1 np2).isBoxCell = true)
    (hbp : cellAt m bp1 bp2 = .floor ∨ cellAt m bp1 bp2 = .goal)
    (hpp : (cellAt m pp1 pp2).isPlayerCell = true)
    (hne1 : ((np1, np2) : Pos) ≠ (pp1, pp2))
    (hne2 : ((bp1, bp2) : Pos) ≠ (pp1, pp2))
    (hne3 : ((bp1, bp2) : Pos) ≠ (np1, np2))
    (hm1 : m1 = setCell m bp1 bp2
      (if cellAt m bp1 bp2 = .goal then .boxOnGoal else .box))
    (hm2 : m2 = setCell m1 np1 np2
      (if cellAt m np1 np2 = .boxOnGoal then .playerOnGoal else .player))
    (hm3 : m3 = setCell m2 pp1 pp2
      (if cellAt m2 pp1 pp2 = .playerOnGoal then .goal else .floor)) :
    numRows m3 = numRows m ∧ (∀ i, rowLen m3 i = rowLen m i) ∧
    (∀ r c, (cellAt m3 r c = .wall ↔ cellAt m r c = .wall)) ∧
    (∀ r c, (cellAt m3 r c).isGoalCell = (cellAt m r c).isGoalCell) ∧
    (∀ q1 q2 : Nat, (cellAt m q1 q2).isBoxCell = true →
      (cellAt m3 q1 q2).isBoxCell = false → ((q1, q2) : Pos) = (np1, np2)) ∧
    boxCount m3 = boxCount m ∧ goalCount m3 = goalCount m := by
  have hnpw : cellAt m np1 np2 ≠ .wall := by
    intro hcon
    rw [hcon] at hnp
    cases hnp
  have hbpw : cellAt m bp1 bp2 ≠ .wall := by
    rcases hbp with h | h <;> rw [h] <;> intro hcon <;> cases hcon
  have hppw : cellAt m pp1 pp2 ≠ .wall := by
    intro hcon
    rw [hcon] at hpp
    cases hpp
  have hnpb := cellAt_ne_wall_bounds m np1 np2 hnpw
  have hbpb := cellAt_ne_wall_bounds m bp1 bp2 hbpw
  have hppb := cellAt_ne_wall_bounds m pp1 pp2 hppw
  have hm1np : cellAt m1 np1 np2 = cellAt m np1 np2 := by
    rw [hm1]
    exact cellAt_setCell_ne m bp1 bp2 _ np1 np2 (Ne.symm hne3)
  have hm1pp : cellAt m1 pp1 pp2 = cellAt m pp1 pp2 := by
    rw [hm1]
    exact cellAt_setCell_ne m bp1 bp2 _ pp1 pp2 (Ne.symm hne2)
  have hm2pp : cellAt m2 pp1 pp2 = cellAt m pp1 pp2 := by
    rw [hm2, cellAt_setCell_ne m1 np1 np2 _ pp1 pp2 (Ne.symm hne1)]
    exact hm1pp
  have hm1bp : cellAt m1 bp1 bp2 =
      (if cellAt m bp1 bp2 = .goal then .boxOnGoal else .box) := by
    rw [hm1]
    exact cellAt_setCell_same m bp1 bp2 _ hbpb.1 hbpb.2
  have hm2np : cellAt m2 np1 np2 =
      (if cellAt m np1 np2 = .boxOnGoal then .playerOnGoal else .player) := by
    rw [hm2]
    exact cellAt_setCell_same m1 np1 np2 _ (by rw [hm1, numRows_setCell]; exact hnpb.1)
      (by rw [hm1, rowLen_setCell]; exact hnpb.2)
  have hm2bp : cellAt m2 bp1 bp2 = cellAt m1 bp1 bp2 := by
    rw [hm2]
    exact cellAt_setCell_ne m1 np1 np2 _ bp1 bp2 hne3
  have hrows : numRows m3 = numRows m := by
    rw [hm3, hm2, hm1, numRows_setCell, numRows_setCell, numRows_setCell]
  have hlens : ∀ i, rowLen m3 i = rowLen m i := by
    intro i
    rw [hm3, hm2, hm1, rowLen_setCell, rowLen_setCell, rowLen_setCell]
  -- the final value of every cell
  have hfin : ∀ r c,
      cellAt m3 r c =
        if ((r, c) : Pos) = (pp1, pp2) then
          (if cellAt m pp1 pp2 = .playerOnGoal then .goal else .floor)
        else if ((r, c) : Pos) = (np1, np2) then
          (if cellAt m np1 np2 = .boxOnGoal then .playerOnGoal else .player)
        else if ((r, c) : Pos) = (bp1, bp2) then
          (if cellAt m bp1 bp2 = .goal then .boxOnGoal else .box)
        else cellAt m r c := by
    intro r c
    by_cases hq1 : ((r, c) : Pos) = (pp1, pp2)
    case pos =>
      rw [if_pos hq1]
      rw [Prod.mk.injEq] at hq1
      obtain ⟨rfl, rfl⟩ := hq1
      rw [hm3, cellAt_setCell_same m2 r c _
        (by rw [hm2, hm1, numRows_setCell, numRows_setCell]; exact hppb.1)
        (by rw [hm2, hm1, rowLen_setCell, rowLen_setCell]; exact hppb.2), hm2pp]
    case neg =>
      rw [if_neg hq1]
      by_cases hq2 : ((r, c) : Pos) = (np1, np2)
      case pos =>
        rw [if_pos hq2]
        rw [Prod.mk.injEq] at hq2
        obtain ⟨rfl, rfl⟩ := hq2
        rw [hm3, cellAt_setCell_ne m2 pp1 pp2 _ r c hq1, hm2np]
      case neg =>
        rw [if_neg hq2]
        by_cases hq3 : ((r, c) : Pos) = (bp1, bp2)
        case pos =>
          rw [if_pos hq3]
          rw [Prod.mk.injEq] at hq3
          obtain ⟨rfl, rfl⟩ := hq3
          rw [hm3, cellAt_setCell_ne m2 pp1 pp2 _ r c hq1, hm2bp, hm1bp]
        case neg =>
          rw [if_neg hq3]
          rw [hm3, cellAt_setCell_ne m2 pp1 pp2 _ r c hq1, hm2,
            cellAt_setCell_ne m1 np1 np2 _ r c hq2, hm1,
            cellAt_setCell_ne m bp1 bp2 _ r c hq3]
  refine ⟨hrows, hlens, ?_, ?_, ?_, ?_, ?_⟩
  · intro r c
    rw [hfin r c]
    by_cases hq1 : ((r, c) : Pos) = (pp1, pp2)
    · rw [if_pos hq1]
      rw [Prod.mk.injEq] at hq1
      obtain ⟨rfl, rfl⟩ := hq1
      revert hpp
      cases cellAt m r c <;> simp [Cell.isPlayerCell]
    · rw [if_neg hq1]
      by_cases hq2 : ((r, c) : Pos) = (np1, np2)
      · rw [if_pos hq2]
        rw [Prod.mk.injEq] at hq2
        obtain ⟨rfl, rfl⟩ := hq2
        revert hnp
        cases cellAt m r c <;> simp [Cell.isBoxCell]
      · rw [if_neg hq2]
        by_cases hq3 : ((r, c) : Pos) = (bp1, bp2)
        · rw [if_pos hq3]
          rw [Prod.mk.injEq] at hq3
          obtain ⟨rfl, rfl⟩ := hq3
          rcases hbp with h | h <;> rw [h] <;> simp
        · rw [if_neg hq3]
  · intro r c
    rw [hfin r c]
    by_cases hq1 : ((r, c) : Pos) = (pp1, pp2)
    · rw [if_pos hq1]
      rw [Prod.mk.injEq] at hq1
      obtain ⟨rfl, rfl⟩ := hq1
      revert hpp
      cases cellAt m r c <;> simp [Cell.isPlayerCell, Cell.isGoalCell]
    · rw [if_neg hq1]
      by_cases hq2 : ((r, c) : Pos) = (np1, np2)
      · rw [if_pos hq2]
        rw [Prod.mk.injEq] at hq2
        obtain ⟨rfl, rfl⟩ := hq2
        revert hnp
        cases cellAt m r c <;> simp [Cell.isBoxCell, Cell.isGoalCell]
      · rw [if_neg hq2]
        by_cases hq3 : ((r, c) : Pos) = (bp1, bp2)
        · rw [if_pos hq3]
          rw [Prod.mk.injEq] at hq3
          obtain ⟨rfl, rfl⟩ := hq3
          rcases hbp with h | h <;> rw [h] <;> simp [Cell.isGoalCell]
        · rw [if_neg hq3]
  · intro q1 q2 hbox hgone
    rw [hfin q1 q2] at hgone
    by_cases hq1 : ((q1, q2) : Pos) = (pp1, pp2)
    · exfalso
      rw [Prod.mk.injEq] at hq1
      obtain ⟨rfl, rfl⟩ := hq1
      revert hbox hpp
      cases cellAt m q1 q2 <;> simp [Cell.isPlayerCell, Cell.isBoxCell]
    · rw [if_neg hq1] at hgone
      by_cases hq2 : ((q1, q2) : Pos) = (np1, np2)
      · exact hq2
      · exfalso
        rw [if_neg hq2] at hgone
        by_cases hq3 : ((q1, q2) : Pos) = (bp1, bp2)
        · rw [Prod.mk.injEq] at hq3
          obtain ⟨rfl, rfl⟩ := hq3
          rcases hbp with h | h <;> rw [h] at hbox <;> cases hbox
        · rw [if_neg hq3, hbox] at hgone
          cases hgone
  · -- box count
    have hb1 : boxCount m1 + 0 = boxCount m + 1 := by
      have h := countP_cells_setCell m bp1 bp2
        (if cellAt m bp1 bp2 = .goal then .boxOnGoal else .box) (fun x => x.isBoxCell)
      rw [← hm1] at h
      have hold : (cellAt m bp1 bp2).isBoxCell = false := by
        rcases hbp with hh | hh <;> rw [hh] <;> rfl
      have hnew : (if cellAt m bp1 bp2 = Cell.goal then Cell.boxOnGoal
          else Cell.box).isBoxCell = true := by
        by_cases hg : cellAt m bp1 bp2 = Cell.goal <;> simp [hg, Cell.isBoxCell]
      rw [if_neg (by simp [hold]), if_pos ⟨hbpb.1, hbpb.2, hnew⟩] at h
      simpa [boxCount] using h
    have hb2 : boxCount m2 + 1 = boxCount m1 + 0 := by
      have h := countP_cells_setCell m1 np1 np2
        (if cellAt m np1 np2 = .boxOnGoal then .playerOnGoal else .player)
        (fun x => x.isBoxCell)
      rw [← hm2] at h
      have hold : (cellAt m1 np1 np2).isBoxCell = true := by
        rw [hm1np]
        exact hnp
      have hnew : (if cellAt m np1 np2 = Cell.boxOnGoal then Cell.playerOnGoal
          else Cell.player).isBoxCell = false := by
        by_cases hg : cellAt m np1 np2 = Cell.boxOnGoal <;> simp [hg, Cell.isBoxCell]
      have hnb1 : np1 < numRows m1 := by
        rw [hm1, numRows_setCell]
        exact hnpb.1
      have hnb2 : np2 < rowLen m1 np1 := by
        rw [hm1, rowLen_setCell]
        exact hnpb.2
      rw [if_pos ⟨hnb1, hnb2, hold⟩, if_neg (by simp [hnew])] at h
      simpa [boxCount] using h
    have hb3 : boxCount m3 = boxCount m2 := by
      have hold : (cellAt m2 pp1 pp2).isBoxCell =
          (if cellAt m2 pp1 pp2 = .playerOnGoal then Cell.goal else Cell.floor).isBoxCell := by
        rw [hm2pp]
        revert hpp
        cases cellAt m pp1 pp2 <;> simp [Cell.isPlayerCell, Cell.isBoxCell]
      have h := countP_cells_setCell_same m2 pp1 pp2 _ (fun x => x.isBoxCell) hold
      rw [← hm3] at h
      simpa [boxCount] using h
    omega
  · -- goal count
    have hg1 : goalCount m1 = goalCount m := by
      have hold : (cellAt m bp1 bp2).isGoalCell =
          (if cellAt m bp1 bp2 = .goal then Cell.boxOnGoal else Cell.box).isGoalCell := by
        rcases hbp with hh | hh <;> rw [hh] <;> rfl
      have h := countP_cells_setCell_same m bp1 bp2 _ (fun x => x.isGoalCell) hold
      rw [← hm1] at h
      simpa [goalCount] using h
    have hg2 : goalCount m2 = goalCount m1 := by
      have hold : (cellAt m1 np1 np2).isGoalCell =
          (if cellAt m np1 np2 = .boxOnGoal then Cell.playerOnGoal
            else Cell.player).isGoalCell := by
        rw [hm1np]
        revert hnp
        cases cellAt m np1 np2 <;> simp [Cell.isBoxCell, Cell.isGoalCell]
      have h := countP_cells_setCell_same m1 np1 np2 _ (fun x => x.isGoalCell) hold
      rw [← hm2] at h
      simpa [goalCount] using h
    have hg3 : goalCount m3 = goalCount m2 := by
      have hold : (cellAt m2 pp1 pp2).isGoalCell =
          (if cellAt m2 pp1 pp2 = .playerOnGoal then Cell.goal else Cell.floor).isGoalCell := by
        rw [hm2pp]
        revert hpp
        cases cellAt m pp1 pp2 <;> simp [Cell.isPlayerCell, Cell.isGoalCell]
      have h := countP_cells_setCell_same m2 pp1 pp2 _ (fun x => x.isGoalCell) hold
      rw [← hm3] at h
      simpa [goalCount] using h
    rw [hg3, hg2, hg1]


/-- Inversion of a legal `apply_move`: the grid keeps its shape, its walls
and its goal cells; the box and goal counts are preserved; and the only way
a box cell can disappear is that the move pushed that box, with the player
standing one step behind it and a free in-bounds cell one step beyond it. -/
theorem apply_move_facts (m m2 : Mat) (mv : Move)
    (h : apply_move m mv = some m2) :
    numRows m2 = numRows m ∧ (∀ i, rowLen m2 i = rowLen m i) ∧
    (∀ r c, (cellAt m2 r c = .wall ↔ cellAt m r c = .wall)) ∧
    (∀ r c, (cellAt m2 r c).isGoalCell = (cellAt m r c).isGoalCell) ∧
    boxCount m2 = boxCount m ∧ goalCount m2 = goalCount m ∧
    (∀ q : Pos, (cellAt m q.1 q.2).isBoxCell = true →
      (cellAt m2 q.1 q.2).isBoxCell = false → MovedBox m mv q) := by
  unfold apply_move at h
  cases hpp : (get_player_and_boxes_positions m).1 with
  | none =>
    rw [hpp] at h
    simp at h
  | some pp =>
    obtain ⟨pp1, pp2⟩ := pp
    rw [hpp] at h
    have hscan := scan_player_cell m (pp1, pp2) hpp
    have hppl : (cellAt m pp1 pp2).isPlayerCell = true := hscan.2.2
    have hd : ((moveDelta mv).1 = 0 ∧ ((moveDelta mv).2 = 1 ∨ (moveDelta mv).2 = -1)) ∨
        ((moveDelta mv).2 = 0 ∧ ((moveDelta mv).1 = 1 ∨ (moveDelta mv).1 = -1)) := by
      cases mv <;> simp [moveDelta]
    simp only [tryDir] at h
    split at h
    case isFalse => simp at h
    case isTrue hc1 =>
      simp only [inBoundsI, Bool.and_eq_true, decide_eq_true_eq] at hc1
      split at h
      case isTrue hc2 =>
        -- simple move onto a free cell
        simp only [Bool.or_eq_true, decide_eq_true_eq] at hc2
        simp only [Option.map_some', Option.some.injEq] at h
        subst h
        have hne : ((((pp1 : Int) + (moveDelta mv).1).toNat,
            (((pp2 : Int) + (moveDelta mv).2).toNat)) : Pos) ≠ ((pp1, pp2) : Pos) := by
          intro he
          rw [Prod.mk.injEq] at he
          rcases hd with ⟨h1, h2 | h2⟩ | ⟨h1, h2 | h2⟩ <;> omega
        have key := simple_write_facts m _ _ pp1 pp2
          (((pp1 : Int) + (moveDelta mv).1).toNat)
          (((pp2 : Int) + (moveDelta mv).2).toNat) hc2 hppl hne rfl rfl
        refine ⟨key.1, key.2.1, key.2.2.1, key.2.2.2.1, key.2.2.2.2.2.1,
          key.2.2.2.2.2.2, ?_⟩
        rintro ⟨q1, q2⟩ hbq hnbq
        exfalso
        simp only at hbq hnbq
        rw [key.2.2.2.2.1 q1 q2, hbq] at hnbq
        cases hnbq
      case isFalse hc2 =>
        split at h
        case isFalse => simp at h
        case isTrue hc3 =>
          split at h
          case isFalse => simp at h
          case isTrue hc4 =>
            simp only [inBoundsI, Bool.and_eq_true, decide_eq_true_eq] at hc4
            split at h
            case isFalse => simp at h
            case isTrue hc5 =>
              -- push of a box
              simp only [Bool.or_eq_true, decide_eq_true_eq] at hc5
              simp only [Option.map_some', Option.some.injEq] at h
              subst h
              have hne1 : ((((pp1 : Int) + (moveDelta mv).1).toNat,
                  (((pp2 : Int) + (moveDelta mv).2).toNat)) : Pos)
                  ≠ ((pp1, pp2) : Pos) := by
                intro he
                rw [Prod.mk.injEq] at he
                rcases hd with ⟨h1, h2 | h2⟩ | ⟨h1, h2 | h2⟩ <;> omega
              have hne2 : ((((pp1 : Int) + (moveDelta mv).1 + (moveDelta mv).1).toNat,
                  (((pp2 : Int) + (moveDelta mv).2 + (moveDelta mv).2).toNat)) : Pos)
                  ≠ ((pp1, pp2) : Pos) := by
                intro he
                rw [Prod.mk.injEq] at he
                rcases hd with ⟨h1, h2 | h2⟩ | ⟨h1, h2 | h2⟩ <;> omega
              have hne3 : ((((pp1 : Int) + (moveDelta mv).1 + (moveDelta mv).1).toNat,
                  (((pp2 : Int) + (moveDelta mv).2 + (moveDelta mv).2).toNat)) : Pos)
                  ≠ ((((pp1 : Int) + (moveDelta mv).1).toNat,
                      (((pp2 : Int) + (moveDelta mv).2).toNat)) : Pos) := by
                intro he
                rw [Prod.mk.injEq] at he
                rcases hd with ⟨h1, h2 | h2⟩ | ⟨h1, h2 | h2⟩ <;> omega
              have key := push_write_facts m _ _ _ pp1 pp2
                (((pp1 : Int) + (moveDelta mv).1).toNat)
                (((pp2 : Int) + (moveDelta mv).2).toNat)
                (((pp1 : Int) + (moveDelta mv).1 + (moveDelta mv).1).toNat)
                (((pp2 : Int) + (moveDelta mv).2 + (moveDelta mv).2).toNat)
                hc3 hc5 hppl hne1 hne2 hne3 rfl rfl rfl
              refine ⟨key.1, key.2.1, key.2.2.1, key.2.2.2.1, key.2.2.2.2.2.1,
                key.2.2.2.2.2.2, ?_⟩
              rintro ⟨q1, q2⟩ hbq hnbq
              simp only at hbq hnbq
              have hqe := key.2.2.2.2.1 q1 q2 hbq hnbq
              rw [Prod.mk.injEq] at hqe
              obtain ⟨rfl, rfl⟩ := hqe
              have e1 : (((((pp1 : Int) + (moveDelta mv).1).toNat : Int),
                  ((((pp2 : Int) + (moveDelta mv).2).toNat : Int))) : Int × Int) =
                  ((pp1 : Int) + (moveDelta mv).1, (pp2 : Int) + (moveDelta mv).2) := by
                rw [Prod.mk.injEq]
                constructor <;> omega
              have e2a : (0 : Int) ≤
                  ((((pp1 : Int) + (moveDelta mv).1).toNat : Int) + (moveDelta mv).1) := by
                omega
              have e2b : ((((pp1 : Int) + (moveDelta mv).1).toNat : Int) + (moveDelta mv).1)
                  < (numRows m : Int) := by
                omega
              have e2c : (0 : Int) ≤
                  ((((pp2 : Int) + (moveDelta mv).2).toNat : Int) + (moveDelta mv).2) := by
                omega
              have e2d : ((((pp2 : Int) + (moveDelta mv).2).toNat : Int) + (moveDelta mv).2)
                  < (numCols m : Int) := by
                omega
              have eb1 : ((((pp1 : Int) + (moveDelta mv).1).toNat : Int)
                    + (moveDelta mv).1).toNat
                  = ((pp1 : Int) + (moveDelta mv).1 + (moveDelta mv).1).toNat := by
                omega
              have eb2 : ((((pp2 : Int) + (moveDelta mv).2).toNat : Int)
                    + (moveDelta mv).2).toNat
                  = ((pp2 : Int) + (moveDelta mv).2 + (moveDelta mv).2).toNat := by
                omega
              have e3 := hc5
              rw [← eb1, ← eb2] at e3
              exact ⟨(pp1, pp2), hpp, e1, e2a, e2b, e2c, e2d, e3⟩


/-- The scanned box list has no duplicate positions. -/
theorem nodup_scan_boxes (m : Mat) : (get_player_and_boxes_positions m).2.Nodup := by
  rw [scan_boxes_eq]
  have hsub : (((cellsEnum m).filter fun qc => qc.2.isBoxCell).map (·.1)).Sublist
      ((cellsEnum m).map Prod.fst) :=
    List.Sublist.map _ ((cellsEnum m).filter_sublist)
  exact hsub.nodup (nodup_fst_cellsEnum m)

/-- A grid with two boxes and three goals is never in a solved state: the
deduplicated box and goal sets have different sizes. -/
theorem not_solved_of_counts (m : Mat) (hb : boxCount m = 2) (hg : goalCount m = 3) :
    isSolvedState m = false := by
  have hbl : (get_player_and_boxes_positions m).2.length = 2 := by
    rw [scan_boxes_length]
    exact hb
  have hgl : (get_goal_positions m).length = 3 := by
    rw [goal_positions_length]
    exact hg
  have hbn := nodup_scan_boxes m
  have hgn := nodup_goal_positions m
  unfold isSolvedState is_level_solved
  split
  · rfl
  · rw [hbn.dedup, hgn.dedup]
    simp [hbl, hgl]

/-- Legal replay preserves the box count and the goal count of the grid. -/
theorem replayLegal_counts (m : Mat) (mvs : List Move) (m2 : Mat)
    (h : replayLegal m mvs = some m2) :
    boxCount m2 = boxCount m ∧ goalCount m2 = goalCount m := by
  induction mvs generalizing m with
  | nil =>
    unfold replayLegal at h
    rw [Option.some.injEq] at h
    subst h
    exact ⟨rfl, rfl⟩
  | cons mv rest ih =>
    unfold replayLegal at h
    cases ha : apply_move m mv with
    | none =>
      rw [ha] at h
      simp at h
    | some mm =>
      rw [ha] at h
      simp only at h
      have hf := apply_move_facts m mm mv ha
      have hr := ih mm h
      exact ⟨hr.1.trans hf.2.2.2.2.1, hr.2.trans hf.2.2.2.2.2.1⟩


/-- Claim C8.  Refuted: the fifth entry of the fallback bank does not
satisfy `solve(entry) != NotFound`.  Its grid has two boxes but three goals,
so no sequence of legal moves can ever reach a solved state (box and goal
counts are invariant under `apply_move` and a solved state needs equal
deduplicated box and goal sets), and running the solver on it returns
`none` (`NotFound`). -/
theorem fallback5_not_solvable :
    (FALLBACK_LEVELS.getD 4 ([], [])).1 = fallback5 ∧
    solve_sokoban_bfs fallback5 100000 = none ∧
    ∀ (mvs : List Move) (m2 : Mat),
      replayLegal fallback5 mvs = some m2 → isSolvedState m2 = false := by
  refine ⟨rfl, ?_, ?_⟩
  · rw [solve_sokoban_bfs_eq_pure]
    rfl
  · intro mvs m2 hrep
    have hc := replayLegal_counts fallback5 mvs m2 hrep
    apply not_solved_of_counts
    · rw [hc.1]
      rfl
    · rw [hc.2]
      rfl

/-- The unsolvability statement of claim C8 is not vacuous: the empty replay
is legal and indeed ends in an unsolved state. -/
theorem fallback5_not_solvable_witness :
    replayLegal fallback5 [] = some fallback5 ∧ isSolvedState fallback5 = false :=
  ⟨rfl, fallback5_not_solvable.2.2 [] fallback5 rfl⟩


theorem HCert_mono (m : Mat) (cols : Nat) (T T2 : List Pos) (p : Pos)
    (hsub : ∀ x, x ∈ T → x ∈ T2) (h : HCert m cols T p) : HCert m cols T2 p := by
  obtain ⟨h1, h2⟩ := h
  constructor
  · rcases h1 with h | h | ⟨hb, hm⟩
    · exact Or.inl h
    · exact Or.inr (Or.inl h)
    · exact Or.inr (Or.inr ⟨hb, hsub _ hm⟩)
  · rcases h2 with h | h | ⟨hb, hm⟩
    · exact Or.inl h
    · exact Or.inr (Or.inl h)
    · exact Or.inr (Or.inr ⟨hb, hsub _ hm⟩)

theorem VCert_mono (m : Mat) (rows : Nat) (T T2 : List Pos) (p : Pos)
    (hsub : ∀ x, x ∈ T → x ∈ T2) (h : VCert m rows T p) : VCert m rows T2 p := by
  obtain ⟨h1, h2⟩ := h
  constructor
  · rcases h1 with h | h | ⟨hb, hm⟩
    · exact Or.inl h
    · exact Or.inr (Or.inl h)
    · exact Or.inr (Or.inr ⟨hb, hsub _ hm⟩)
  · rcases h2 with h | h | ⟨hb, hm⟩
    · exact Or.inl h
    · exact Or.inr (Or.inl h)
    · exact Or.inr (Or.inr ⟨hb, hsub _ hm⟩)

theorem AxCert_mono (m : Mat) (rows cols : Nat) (T T2 : List Pos) (axis : Axis) (p : Pos)
    (hsub : ∀ x, x ∈ T → x ∈ T2) (h : AxCert m rows cols T axis p) :
    AxCert m rows cols T2 axis p := by
  cases axis
  · exact HCert_mono m cols T T2 p hsub h
  · exact VCert_mono m rows T T2 p hsub h

theorem Immobile_mono (m : Mat) (rows cols : Nat) (T T2 : List Pos) (p : Pos)
    (hsub : ∀ x, x ∈ T → x ∈ T2) (h : Immobile m rows cols T p) :
    Immobile m rows cols T2 p := by
  obtain ⟨h1, h2⟩ := h
  constructor
  · rcases h1 with h | ⟨q, hq, he⟩
    · exact Or.inl (HCert_mono m cols T T2 p hsub h)
    · exact Or.inr ⟨q, hsub _ hq, he⟩
  · rcases h2 with h | ⟨q, hq, he⟩
    · exact Or.inl (VCert_mono m rows T T2 p hsub h)
    · exact Or.inr ⟨q, hsub _ hq, he⟩


/-- One side attempt of `is_box_blocked`: it threads the set monotonically;
a `true` answer means the side was a boundary or wall, or a visited box; and
every box it adds is certified. -/
theorem ib_side (m : Mat) (rows cols : Nat) (goals : List Pos) (fuel : Nat)
    (ih : IBPost m rows cols goals fuel) (r2 c2 : Nat) (ax2 : Axis) (base : List Pos)
    (cond : Bool) (S : Bool × List Pos)
    (hS : S = if cond then (true, base)
      else if (cellAt m r2 c2).isBoxCell then
        is_box_blocked m rows cols goals fuel r2 c2 ax2 base
      else (false, base)) :
    (∀ x, x ∈ base → x ∈ S.2) ∧
    (S.1 = true → (cond = true ∨
      ((cellAt m r2 c2).isBoxCell = true ∧ ((r2, c2) : Pos) ∈ S.2))) ∧
    (S.1 = true → ∀ x, x ∈ S.2 → ¬ x ∈ base →
      ¬ x ∈ goals ∧ (cellAt m x.1 x.2).isBoxCell = true ∧
      (x = ((r2, c2) : Pos) → AxCert m rows cols S.2 ax2 x) ∧
      (x ≠ ((r2, c2) : Pos) → Immobile m rows cols S.2 x)) := by
  by_cases hc : cond = true
  · rw [if_pos hc] at hS
    subst hS
    refine ⟨fun x hx => hx, fun _ => Or.inl hc, ?_⟩
    intro _ x hx hnx
    exact absurd hx hnx
  · rw [if_neg hc] at hS
    by_cases hb : (cellAt m r2 c2).isBoxCell = true
    · rw [if_pos hb] at hS
      subst hS
      have post := ih r2 c2 ax2 base
      refine ⟨post.1, ?_, ?_⟩
      · intro htrue
        exact Or.inr ⟨hb, (post.2 htrue).1⟩
      · intro htrue x hx hnx
        obtain ⟨hng, hroot, hother⟩ := (post.2 htrue).2 x hx hnx
        refine ⟨hng, ?_, hroot, fun hne => (hother hne).2⟩
        by_cases hxe : x = ((r2, c2) : Pos)
        · subst hxe
          exact hb
        · exact (hother hxe).1
    · rw [if_neg hb] at hS
      subst hS
      refine ⟨fun x hx => hx, ?_, ?_⟩
      · intro htrue
        simp at htrue
      · intro htrue
        simp at htrue

/-- Unfolding of a `horizontal` step of `is_box_blocked` into its two side
attempts. -/
theorem is_box_blocked_succ_h (m : Mat) (rows cols : Nat) (goals : List Pos)
    (fuel br bc : Nat) (checked : List Pos)
    (hck : ¬ ((br, bc) : Pos) ∈ checked) (hgl : ¬ ((br, bc) : Pos) ∈ goals) :
    ∃ L R : Bool × List Pos,
      L = (if bc = 0 || cellAt m br (bc - 1) = .wall then (true, (br, bc) :: checked)
        else if (cellAt m br (bc - 1)).isBoxCell then
          is_box_blocked m rows cols goals fuel br (bc - 1) .vertical ((br, bc) :: checked)
        else (false, (br, bc) :: checked)) ∧
      R = (if bc = cols - 1 || cellAt m br (bc + 1) = .wall then (true, L.2)
        else if (cellAt m br (bc + 1)).isBoxCell then
          is_box_blocked m rows cols goals fuel br (bc + 1) .vertical L.2
        else (false, L.2)) ∧
      is_box_blocked m rows cols goals (fuel + 1) br bc .horizontal checked
        = (L.1 && R.1, R.2) := by
  refine ⟨_, _, rfl, rfl, ?_⟩
  simp only [is_box_blocked]
  rw [if_neg hck]
  rw [if_neg hgl]

/-- Unfolding of a `vertical` step of `is_box_blocked` into its two side
attempts. -/
theorem is_box_blocked_succ_v (m : Mat) (rows cols : Nat) (goals : List Pos)
    (fuel br bc : Nat) (checked : List Pos)
    (hck : ¬ ((br, bc) : Pos) ∈ checked) (hgl : ¬ ((br, bc) : Pos) ∈ goals) :
    ∃ U D : Bool × List Pos,
      U = (if br = 0 || cellAt m (br - 1) bc = .wall then (true, (br, bc) :: checked)
        else if (cellAt m (br - 1) bc).isBoxCell then
          is_box_blocked m rows cols goals fuel (br - 1) bc .horizontal ((br, bc) :: checked)
        else (false, (br, bc) :: checked)) ∧
      D = (if br = rows - 1 || cellAt m (br + 1) bc = .wall then (true, U.2)
        else if (cellAt m (br + 1) bc).isBoxCell then
          is_box_blocked m rows cols goals fuel (br + 1) bc .horizontal U.2
        else (false, U.2)) ∧
      is_box_blocked m rows cols goals (fuel + 1) br bc .vertical checked
        = (U.1 && D.1, D.2) := by
  refine ⟨_, _, rfl, rfl, ?_⟩
  simp only [is_box_blocked]
  rw [if_neg hck]
  rw [if_neg hgl]


/-- Certificate extraction for `is_box_blocked`: every call satisfies its
postcondition `IBPost`. -/
theorem is_box_blocked_cert (m : Mat) (rows cols : Nat) (goals : List Pos) :
    ∀ fuel, IBPost m rows cols goals fuel := by
  intro fuel
  induction fuel with
  | zero =>
    intro br bc axis checked
    constructor
    · intro x hx
      simpa [is_box_blocked] using hx
    · intro hres
      simp [is_box_blocked] at hres
  | succ fuel ih =>
    intro br bc axis checked
    by_cases hck : ((br, bc) : Pos) ∈ checked
    · have heq : is_box_blocked m rows cols goals (fuel + 1) br bc axis checked
          = (true, checked) := by
        simp only [is_box_blocked]
        rw [if_pos hck]
      rw [heq]
      refine ⟨fun x hx => hx, fun _ => ⟨hck, ?_⟩⟩
      intro x hx hnx
      exact absurd hx hnx
    · by_cases hgl : ((br, bc) : Pos) ∈ goals
      · have heq : is_box_blocked m rows cols goals (fuel + 1) br bc axis checked
            = (false, (br, bc) :: checked) := by
          simp only [is_box_blocked]
          rw [if_neg hck]
          rw [if_pos hgl]
        rw [heq]
        refine ⟨fun x hx => List.mem_cons_of_mem _ hx, ?_⟩
        intro hres
        simp at hres
      · cases axis with
        | horizontal =>
          obtain ⟨L, R, hLdef, hRdef, heq⟩ :=
            is_box_blocked_succ_h m rows cols goals fuel br bc checked hck hgl
          have hLs := ib_side m rows cols goals fuel ih br (bc - 1) Axis.vertical
            ((br, bc) :: checked) _ L hLdef
          have hRs := ib_side m rows cols goals fuel ih br (bc + 1) Axis.vertical
            L.2 _ R hRdef
          have hsub0 : ∀ x, x ∈ checked → x ∈ L.2 := fun x hx =>
            hLs.1 x (List.mem_cons_of_mem _ hx)
          have hsubL : ∀ x, x ∈ L.2 → x ∈ R.2 := hRs.1
          have hroot2 : ((br, bc) : Pos) ∈ R.2 :=
            hsubL _ (hLs.1 _ (List.mem_cons_self _ _))
          have main : (∀ x, x ∈ checked → x ∈ R.2) ∧
              ((L.1 && R.1) = true →
                ((br, bc) : Pos) ∈ R.2 ∧
                ∀ x, x ∈ R.2 → ¬ x ∈ checked →
                  ¬ x ∈ goals ∧
                  (x = ((br, bc) : Pos) →
                    AxCert m rows cols R.2 .horizontal x) ∧
                  (x ≠ ((br, bc) : Pos) →
                    (cellAt m x.1 x.2).isBoxCell = true ∧
                    Immobile m rows cols R.2 x)) := by
            refine ⟨fun x hx => hsubL x (hsub0 x hx), ?_⟩
            intro htrue
            rw [Bool.and_eq_true] at htrue
            obtain ⟨hL1, hR1⟩ := htrue
            have hcertH : HCert m cols R.2 (br, bc) := by
              simp only [HCert]
              constructor
              · rcases hLs.2.1 hL1 with hc | ⟨hb, hm⟩
                · simp only [Bool.or_eq_true, decide_eq_true_eq] at hc
                  rcases hc with hc | hc
                  · exact Or.inl hc
                  · exact Or.inr (Or.inl hc)
                · exact Or.inr (Or.inr ⟨hb, hsubL _ hm⟩)
              · rcases hRs.2.1 hR1 with hc | ⟨hb, hm⟩
                · simp only [Bool.or_eq_true, decide_eq_true_eq] at hc
                  rcases hc with hc | hc
                  · exact Or.inl hc
                  · exact Or.inr (Or.inl hc)
                · exact Or.inr (Or.inr ⟨hb, hm⟩)
            refine ⟨hroot2, ?_⟩
            intro x hx hnx
            by_cases hx0 : x ∈ ((br, bc) :: checked)
            · have hxe : x = ((br, bc) : Pos) := by
                rcases List.mem_cons.mp hx0 with h | h
                · exact h
                · exact absurd h hnx
              subst hxe
              exact ⟨hgl, fun _ => hcertH, fun hne => absurd rfl hne⟩
            · have hne : x ≠ ((br, bc) : Pos) := by
                intro hxe
                subst hxe
                exact hx0 (List.mem_cons_self _ _)
              by_cases hxL : x ∈ L.2
              · obtain ⟨hng, hbox, hrootL, hotherL⟩ := hLs.2.2 hL1 x hxL hx0
                refine ⟨hng, fun hxe => absurd hxe hne, fun _ => ⟨hbox, ?_⟩⟩
                by_cases hxr : x = ((br, bc - 1) : Pos)
                · subst hxr
                  have hbc : bc ≠ 0 := by
                    intro h0
                    apply hx0
                    rw [h0]
                    exact List.mem_cons_self _ _
                  have hvert : VCert m rows R.2 (br, bc - 1) :=
                    VCert_mono m rows L.2 R.2 _ hsubL (hrootL rfl)
                  exact ⟨Or.inr ⟨(br, bc), hroot2, rfl,
                    Or.inl (show bc = bc - 1 + 1 by omega)⟩, Or.inl hvert⟩
                · exact Immobile_mono m rows cols L.2 R.2 x hsubL (hotherL hxr)
              · obtain ⟨hng, hbox, hrootR, hotherR⟩ := hRs.2.2 hR1 x hx hxL
                refine ⟨hng, fun hxe => absurd hxe hne, fun _ => ⟨hbox, ?_⟩⟩
                by_cases hxr : x = ((br, bc + 1) : Pos)
                · subst hxr
                  have hvert : VCert m rows R.2 (br, bc + 1) := hrootR rfl
                  exact ⟨Or.inr ⟨(br, bc), hroot2, rfl, Or.inr rfl⟩, Or.inl hvert⟩
                · exact hotherR hxr
          rw [heq]
          exact main
        | vertical =>
          obtain ⟨U, D, hUdef, hDdef, heq⟩ :=
            is_box_blocked_succ_v m rows cols goals fuel br bc checked hck hgl
          have hUs := ib_side m rows cols goals fuel ih (br - 1) bc Axis.horizontal
            ((br, bc) :: checked) _ U hUdef
          have hDs := ib_side m rows cols goals fuel ih (br + 1) bc Axis.horizontal
            U.2 _ D hDdef
          have hsub0 : ∀ x, x ∈ checked → x ∈ U.2 := fun x hx =>
            hUs.1 x (List.mem_cons_of_mem _ hx)
          have hsubU : ∀ x, x ∈ U.2 → x ∈ D.2 := hDs.1
          have hroot2 : ((br, bc) : Pos) ∈ D.2 :=
            hsubU _ (hUs.1 _ (List.mem_cons_self _ _))
          have main : (∀ x, x ∈ checked → x ∈ D.2) ∧
              ((U.1 && D.1) = true →
                ((br, bc) : Pos) ∈ D.2 ∧
                ∀ x, x ∈ D.2 → ¬ x ∈ checked →
                  ¬ x ∈ goals ∧
                  (x = ((br, bc) : Pos) →
                    AxCert m rows cols D.2 .vertical x) ∧
                  (x ≠ ((br, bc) : Pos) →
                    (cellAt m x.1 x.2).isBoxCell = true ∧
                    Immobile m rows cols D.2 x)) := by
            refine ⟨fun x hx => hsubU x (hsub0 x hx), ?_⟩
            intro htrue
            rw [Bool.and_eq_true] at htrue
            obtain ⟨hU1, hD1⟩ := htrue
            have hcertV : VCert m rows D.2 (br, bc) := by
              simp only [VCert]
              constructor
              · rcases hUs.2.1 hU1 with hc | ⟨hb, hm⟩
                · simp only [Bool.or_eq_true, decide_eq_true_eq] at hc
                  rcases hc with hc | hc
                  · exact Or.inl hc
                  · exact Or.inr (Or.inl hc)
                · exact Or.inr (Or.inr ⟨hb, hsubU _ hm⟩)
              · rcases hDs.2.1 hD1 with hc | ⟨hb, hm⟩
                · simp only [Bool.or_eq_true, decide_eq_true_eq] at hc
                  rcases hc with hc | hc
                  · exact Or.inl hc
                  · exact Or.inr (Or.inl hc)
                · exact Or.inr (Or.inr ⟨hb, hm⟩)
            refine ⟨hroot2, ?_⟩
            intro x hx hnx
            by_cases hx0 : x ∈ ((br, bc) :: checked)
            · have hxe : x = ((br, bc) : Pos) := by
                rcases List.mem_cons.mp hx0 with h | h
                · exact h
                · exact absurd h hnx
              subst hxe
              exact ⟨hgl, fun _ => hcertV, fun hne => absurd rfl hne⟩
            · have hne : x ≠ ((br, bc) : Pos) := by
                intro hxe
                subst hxe
                exact hx0 (List.mem_cons_self _ _)
              by_cases hxU : x ∈ U.2
              · obtain ⟨hng, hbox, hrootU, hotherU⟩ := hUs.2.2 hU1 x hxU hx0
                refine ⟨hng, fun hxe => absurd hxe hne, fun _ => ⟨hbox, ?_⟩⟩
                by_cases hxr : x = ((br - 1, bc) : Pos)
                · subst hxr
                  have hbr : br ≠ 0 := by
                    intro h0
                    apply hx0
                    rw [h0]
                    exact List.mem_cons_self _ _
                  have hhor : HCert m cols D.2 (br - 1, bc) :=
                    HCert_mono m cols U.2 D.2 _ hsubU (hrootU rfl)
                  exact ⟨Or.inl hhor, Or.inr ⟨(br, bc), hroot2, rfl,
                    Or.inl (show br = br - 1 + 1 by omega)⟩⟩
                · exact Immobile_mono m rows cols U.2 D.2 x hsubU (hotherU hxr)
              · obtain ⟨hng, hbox, hrootD, hotherD⟩ := hDs.2.2 hD1 x hx hxU
                refine ⟨hng, fun hxe => absurd hxe hne, fun _ => ⟨hbox, ?_⟩⟩
                by_cases hxr : x = ((br + 1, bc) : Pos)
                · subst hxr
                  have hhor : HCert m cols D.2 (br + 1, bc) := hrootD rfl
                  exact ⟨Or.inl hhor, Or.inr ⟨(br, bc), hroot2, rfl, Or.inr rfl⟩⟩
                · exact hotherD hxr
          rw [heq]
          exact main


theorem not_player_and_box (c : Cell) (h1 : c.isPlayerCell = true)
    (h2 : c.isBoxCell = true) : False := by
  cases c <;> simp [Cell.isPlayerCell, Cell.isBoxCell] at h1 h2

theorem not_player_and_wall (c : Cell) (h1 : c.isPlayerCell = true)
    (h2 : c = .wall) : False := by
  rw [h2] at h1
  simp [Cell.isPlayerCell] at h1

theorem not_free_and_box (c : Cell) (h1 : c = .floor ∨ c = .goal)
    (h2 : c.isBoxCell = true) : False := by
  rcases h1 with h | h <;> rw [h] at h2 <;> simp [Cell.isBoxCell] at h2

theorem not_free_and_wall (c : Cell) (h1 : c = .floor ∨ c = .goal)
    (h2 : c = .wall) : False := by
  rw [h2] at h1
  simp at h1

/-- First-mover argument: if every box of `T` is `Immobile` with respect to
the original grid `m0`, then in any grid `m` that keeps the shape and walls
of `m0` and still has all of `T` in place, a legal move cannot remove any
box of `T` from its cell. -/
theorem immobile_step (m0 m m2 : Mat) (T : List Pos) (mv : Move)
    (hwall : ∀ r c, (cellAt m r c = .wall ↔ cellAt m0 r c = .wall))
    (himm : ∀ x, x ∈ T → Immobile m0 (numRows m0) (numCols m0) T x)
    (hbox : ∀ x, x ∈ T → (cellAt m x.1 x.2).isBoxCell = true)
    (hmv : apply_move m mv = some m2) :
    ∀ x, x ∈ T → (cellAt m2 x.1 x.2).isBoxCell = true := by
  intro x hxT
  by_contra hnb
  simp only [Bool.not_eq_true] at hnb
  have hmb := (apply_move_facts m m2 mv hmv).2.2.2.2.2.2 x (hbox x hxT) hnb
  obtain ⟨x1, x2⟩ := x
  obtain ⟨pp, hpp, heq2, h1, h2, h3, h4, hfree⟩ := hmb
  obtain ⟨p1, p2⟩ := pp
  obtain ⟨hppr, hppc, hppl⟩ := scan_player_cell m (p1, p2) hpp
  simp only at hppr hppc hppl heq2 h1 h2 h3 h4 hfree
  rw [Prod.mk.injEq] at heq2
  obtain ⟨hex, hey⟩ := heq2
  have hd : ((moveDelta mv).1 = 0 ∧ ((moveDelta mv).2 = 1 ∨ (moveDelta mv).2 = -1)) ∨
      ((moveDelta mv).2 = 0 ∧ ((moveDelta mv).1 = 1 ∨ (moveDelta mv).1 = -1)) := by
    cases mv <;> simp [moveDelta]
  obtain ⟨hH, hV⟩ := himm (x1, x2) hxT
  rcases hd with ⟨hd1, hd2⟩ | ⟨hd2, hd1⟩
  · -- horizontal move: use the left-cell part of the horizontal guarantee
    have hp1 : p1 = x1 := by omega
    have hbeq1 : ((x1 : Int) + (moveDelta mv).1).toNat = x1 := by omega
    rcases hH with ⟨hleft, _⟩ | ⟨q, hqT, hq1, hqadj⟩
    · rcases hleft with h0 | hw | ⟨_, hT2⟩
      · rcases hd2 with h | h <;> omega
      · have hwm : cellAt m x1 (x2 - 1) = .wall := (hwall _ _).mpr hw
        rcases hd2 with h | h
        · have hp2 : p2 = x2 - 1 := by omega
          rw [hp1, hp2] at hppl
          exact not_player_and_wall _ hppl hwm
        · have hbeq : ((x2 : Int) + (moveDelta mv).2).toNat = x2 - 1 := by omega
          rw [hbeq1, hbeq] at hfree
          exact not_free_and_wall _ hfree hwm
      · simp only at hT2
        have hbm := hbox _ hT2
        simp only at hbm
        rcases hd2 with h | h
        · have hp2 : p2 = x2 - 1 := by omega
          rw [hp1, hp2] at hppl
          exact not_player_and_box _ hppl hbm
        · have hbeq : ((x2 : Int) + (moveDelta mv).2).toNat = x2 - 1 := by omega
          rw [hbeq1, hbeq] at hfree
          exact not_free_and_box _ hfree hbm
    · obtain ⟨q1, q2⟩ := q
      simp only at hq1 hqadj
      have hqbox := hbox _ hqT
      simp only at hqbox
      rcases hqadj with hr | hl
      · rcases hd2 with h | h
        · have hbeq : ((x2 : Int) + (moveDelta mv).2).toNat = x2 + 1 := by omega
          rw [hbeq1, hbeq] at hfree
          rw [hq1, hr] at hqbox
          exact not_free_and_box _ hfree hqbox
        · have hp2 : p2 = x2 + 1 := by omega
          rw [hp1, hp2] at hppl
          rw [hq1, hr] at hqbox
          exact not_player_and_box _ hppl hqbox
      · have hq2v : q2 = x2 - 1 := by omega
        rcases hd2 with h | h
        · have hp2 : p2 = x2 - 1 := by omega
          rw [hp1, hp2] at hppl
          rw [hq1, hq2v] at hqbox
          exact not_player_and_box _ hppl hqbox
        · have hbeq : ((x2 : Int) + (moveDelta mv).2).toNat = x2 - 1 := by omega
          rw [hbeq1, hbeq] at hfree
          rw [hq1, hq2v] at hqbox
          exact not_free_and_box _ hfree hqbox
  · -- vertical move: use the top-cell part of the vertical guarantee
    have hp2 : p2 = x2 := by omega
    have hbeq2 : ((x2 : Int) + (moveDelta mv).2).toNat = x2 := by omega
    rcases hV with ⟨hup, _⟩ | ⟨q, hqT, hq2, hqadj⟩
    · rcases hup with h0 | hw | ⟨_, hT2⟩
      · rcases hd1 with h | h <;> omega
      · have hwm : cellAt m (x1 - 1) x2 = .wall := (hwall _ _).mpr hw
        rcases hd1 with h | h
        · have hp1 : p1 = x1 - 1 := by omega
          rw [hp1, hp2] at hppl
          exact not_player_and_wall _ hppl hwm
        · have hbeq : ((x1 : Int) + (moveDelta mv).1).toNat = x1 - 1 := by omega
          rw [hbeq, hbeq2] at hfree
          exact not_free_and_wall _ hfree hwm
      · simp only at hT2
        have hbm := hbox _ hT2
        simp only at hbm
        rcases hd1 with h | h
        · have hp1 : p1 = x1 - 1 := by omega
          rw [hp1, hp2] at hppl
          exact not_player_and_box _ hppl hbm
        · have hbeq : ((x1 : Int) + (moveDelta mv).1).toNat = x1 - 1 := by omega
          rw [hbeq, hbeq2] at hfree
          exact not_free_and_box _ hfree hbm
    · obtain ⟨q1, q2⟩ := q
      simp only at hq2 hqadj
      have hqbox := hbox _ hqT
      simp only at hqbox
      rcases hqadj with hr | hl
      · rcases hd1 with h | h
        · have hbeq : ((x1 : Int) + (moveDelta mv).1).toNat = x1 + 1 := by omega
          rw [hbeq, hbeq2] at hfree
          rw [hq2, hr] at hqbox
          exact not_free_and_box _ hfree hqbox
        · have hp1 : p1 = x1 + 1 := by omega
          rw [hp1, hp2] at hppl
          rw [hq2, hr] at hqbox
          exact not_player_and_box _ hppl hqbox
      · have hq1v : q1 = x1 - 1 := by omega
        rcases hd1 with h | h
        · have hp1 : p1 = x1 - 1 := by omega
          rw [hp1, hp2] at hppl
          rw [hq2, hq1v] at hqbox
          exact not_player_and_box _ hppl hqbox
        · have hbeq : ((x1 : Int) + (moveDelta mv).1).toNat = x1 - 1 := by omega
          rw [hbeq, hbeq2] at hfree
          rw [hq2, hq1v] at hqbox
          exact not_free_and_box _ hfree hqbox


/-- From a `true` answer of `detect_freeze_deadlocks` a frozen set can be
extracted: a root box off the goals together with a set `T` of boxes, every
one of which is `Immobile` relative to `T`. -/
theorem detect_freeze_cert (m : Mat) (boxes goals : List Pos)
    (hbx : ∀ b, b ∈ boxes → (cellAt m b.1 b.2).isBoxCell = true)
    (hdet : detect_freeze_deadlocks m boxes goals = true) :
    ∃ (root : Pos) (T : List Pos),
      root ∈ T ∧ ¬ root ∈ goals ∧
      (∀ x, x ∈ T → (cellAt m x.1 x.2).isBoxCell = true) ∧
      (∀ x, x ∈ T → Immobile m (numRows m) (numCols m) T x) := by
  simp only [detect_freeze_deadlocks] at hdet
  rw [List.any_eq_true] at hdet
  obtain ⟨b, hbmem, hb⟩ := hdet
  by_cases hg : b ∈ goals
  · rw [if_pos hg] at hb
    cases hb
  · rw [if_neg hg] at hb
    rw [Bool.and_eq_true] at hb
    obtain ⟨hH, hV⟩ := hb
    have postH := (is_box_blocked_cert m (numRows m) (numCols m) goals
      (numRows m * numCols m + 1) b.1 b.2 Axis.horizontal []).2 hH
    have postV := (is_box_blocked_cert m (numRows m) (numCols m) goals
      (numRows m * numCols m + 1) b.1 b.2 Axis.vertical []).2 hV
    obtain ⟨hbTH, hcertH⟩ := postH
    obtain ⟨hbTV, hcertV⟩ := postV
    refine ⟨b,
      (is_box_blocked m (numRows m) (numCols m) goals
        (numRows m * numCols m + 1) b.1 b.2 Axis.horizontal []).2 ++
      (is_box_blocked m (numRows m) (numCols m) goals
        (numRows m * numCols m + 1) b.1 b.2 Axis.vertical []).2,
      List.mem_append_left _ hbTH, hg, ?_, ?_⟩
    · intro x hx
      rcases List.mem_append.mp hx with hx2 | hx2
      · by_cases hxe : x = ((b.1, b.2) : Pos)
        · rw [hxe]
          exact hbx b hbmem
        · exact (((hcertH x hx2 (List.not_mem_nil x)).2.2) hxe).1
      · by_cases hxe : x = ((b.1, b.2) : Pos)
        · rw [hxe]
          exact hbx b hbmem
        · exact (((hcertV x hx2 (List.not_mem_nil x)).2.2) hxe).1
    · have hsubH : ∀ x, x ∈ (is_box_blocked m (numRows m) (numCols m) goals
          (numRows m * numCols m + 1) b.1 b.2 Axis.horizontal []).2 →
          x ∈ (is_box_blocked m (numRows m) (numCols m) goals
            (numRows m * numCols m + 1) b.1 b.2 Axis.horizontal []).2 ++
          (is_box_blocked m (numRows m) (numCols m) goals
            (numRows m * numCols m + 1) b.1 b.2 Axis.vertical []).2 :=
        fun x hx => List.mem_append_left _ hx
      have hsubV : ∀ x, x ∈ (is_box_blocked m (numRows m) (numCols m) goals
          (numRows m * numCols m + 1) b.1 b.2 Axis.vertical []).2 →
          x ∈ (is_box_blocked m (numRows m) (numCols m) goals
            (numRows m * numCols m + 1) b.1 b.2 Axis.horizontal []).2 ++
          (is_box_blocked m (numRows m) (numCols m) goals
            (numRows m * numCols m + 1) b.1 b.2 Axis.vertical []).2 :=
        fun x hx => List.mem_append_right _ hx
      have hrootImm : Immobile m (numRows m) (numCols m)
          ((is_box_blocked m (numRows m) (numCols m) goals
            (numRows m * numCols m + 1) b.1 b.2 Axis.horizontal []).2 ++
          (is_box_blocked m (numRows m) (numCols m) goals
            (numRows m * numCols m + 1) b.1 b.2 Axis.vertical []).2) b := by
        have hHC := (hcertH b hbTH (List.not_mem_nil b)).2.1 rfl
        have hVC := (hcertV b hbTV (List.not_mem_nil b)).2.1 rfl
        exact ⟨Or.inl (HCert_mono m (numCols m) _ _ b hsubH hHC),
          Or.inl (VCert_mono m (numRows m) _ _ b hsubV hVC)⟩
      intro x hx
      rcases List.mem_append.mp hx with hx2 | hx2
      · by_cases hxe : x = ((b.1, b.2) : Pos)
        · rw [hxe]
          exact hrootImm
        · exact Immobile_mono m (numRows m) (numCols m) _ _ x hsubH
            (((hcertH x hx2 (List.not_mem_nil x)).2.2) hxe).2
      · by_cases hxe : x = ((b.1, b.2) : Pos)
        · rw [hxe]
          exact hrootImm
        · exact Immobile_mono m (numRows m) (numCols m) _ _ x hsubV
            (((hcertV x hx2 (List.not_mem_nil x)).2.2) hxe).2

/-- A state with a box off the goal squares is not solved. -/
theorem not_solved_of_witness_box (m2 : Mat) (root : Pos)
    (hmem : root ∈ (get_player_and_boxes_positions m2).2)
    (hng : ¬ root ∈ get_goal_positions m2) :
    isSolvedState m2 = false := by
  unfold isSolvedState is_level_solved
  split
  · rfl
  · have hroot_in_bs : root ∈ (get_player_and_boxes_positions m2).2.dedup :=
      List.mem_dedup.mpr hmem
    rw [Bool.eq_false_iff]
    intro hcon
    simp only [Bool.and_eq_true] at hcon
    have h2 := hcon.1.2
    rw [List.all_eq_true] at h2
    have h3 := h2 root hroot_in_bs
    rw [decide_eq_true_eq] at h3
    exact hng (List.mem_dedup.mp h3)


/-- Claim C3.  Freeze-detector soundness: if `detect_freeze_deadlocks`
answers `true` on a state (with the box and goal lists scanned from it),
then no sequence of legal moves (simple steps and pushes as performed by the
solver's move processing, `apply_move`) from that state ever reaches a state
in which the level is solved. -/
theorem detect_freeze_deadlocks_sound (m : Mat)
    (hdet : detect_freeze_deadlocks m (get_player_and_boxes_positions m).2
      (get_goal_positions m) = true) :
    ∀ (mvs : List Move) (m2 : Mat),
      replayLegal m mvs = some m2 → isSolvedState m2 = false := by
  have hbx : ∀ b, b ∈ (get_player_and_boxes_positions m).2 →
      (cellAt m b.1 b.2).isBoxCell = true := by
    intro b hb
    exact ((mem_scan_boxes m b).mp hb).2.2
  obtain ⟨root, T, hrootT, hrootG, hTbox, hTimm⟩ :=
    detect_freeze_cert m (get_player_and_boxes_positions m).2 (get_goal_positions m)
      hbx hdet
  have hinv : ∀ (mvs : List Move) (mc m2 : Mat),
      replayLegal mc mvs = some m2 →
      (∀ r c, (cellAt mc r c = .wall ↔ cellAt m r c = .wall)) →
      (∀ r c, (cellAt mc r c).isGoalCell = (cellAt m r c).isGoalCell) →
      (∀ x, x ∈ T → (cellAt mc x.1 x.2).isBoxCell = true) →
      ((∀ r c, (cellAt m2 r c = .wall ↔ cellAt m r c = .wall)) ∧
       (∀ r c, (cellAt m2 r c).isGoalCell = (cellAt m r c).isGoalCell) ∧
       (∀ x, x ∈ T → (cellAt m2 x.1 x.2).isBoxCell = true)) := by
    intro mvs
    induction mvs with
    | nil =>
      intro mc m2 hrep h3 h4 h5
      unfold replayLegal at hrep
      rw [Option.some.injEq] at hrep
      subst hrep
      exact ⟨h3, h4, h5⟩
    | cons mv rest ih =>
      intro mc m2 hrep h3 h4 h5
      unfold replayLegal at hrep
      cases ha : apply_move mc mv with
      | none =>
        rw [ha] at hrep
        simp at hrep
      | some mm =>
        rw [ha] at hrep
        simp only at hrep
        have hf := apply_move_facts mc mm mv ha
        have hstep := immobile_step m mc mm T mv h3 hTimm h5 ha
        exact ih mm m2 hrep
          (fun r c => (hf.2.2.1 r c).trans (h3 r c))
          (fun r c => (hf.2.2.2.1 r c).trans (h4 r c)) hstep
  intro mvs m2 hrep
  obtain ⟨hw2, hg2, hb2⟩ := hinv mvs m m2 hrep (fun _ _ => Iff.rfl) (fun _ _ => rfl) hTbox
  have hrootbox0 := hTbox root hrootT
  have hbnds0 : root.1 < numRows m ∧ root.2 < rowLen m root.1 := by
    apply cellAt_ne_wall_bounds
    intro hcon
    rw [hcon] at hrootbox0
    simp [Cell.isBoxCell] at hrootbox0
  have hrootng : (cellAt m root.1 root.2).isGoalCell = false := by
    cases hgc : (cellAt m root.1 root.2).isGoalCell
    · rfl
    · exact absurd ((mem_goal_positions m root).mpr ⟨hbnds0.1, hbnds0.2, hgc⟩) hrootG
  have hrootbox2 : (cellAt m2 root.1 root.2).isBoxCell = true := hb2 root hrootT
  have hbnds2 : root.1 < numRows m2 ∧ root.2 < rowLen m2 root.1 := by
    apply cellAt_ne_wall_bounds
    intro hcon
    rw [hcon] at hrootbox2
    simp [Cell.isBoxCell] at hrootbox2
  have hrootmem : root ∈ (get_player_and_boxes_positions m2).2 :=
    (mem_scan_boxes m2 root).mpr ⟨hbnds2.1, hbnds2.2, hrootbox2⟩
  have hrootgl : ¬ root ∈ get_goal_positions m2 := by
    intro hmem
    have hgc := ((mem_goal_positions m2 root).mp hmem).2.2
    rw [hg2 root.1 root.2, hrootng] at hgc
    cases hgc
  exact not_solved_of_witness_box m2 root hrootmem hrootgl

/-- Witness for C3: on the concrete frozen fixture the detector fires, the
empty replay is legal, and the state is indeed unsolved. -/
theorem detect_freeze_deadlocks_sound_witness :
    detect_freeze_deadlocks frozenLevel (get_player_and_boxes_positions frozenLevel).2
      (get_goal_positions frozenLevel) = true ∧
    replayLegal frozenLevel [] = some frozenLevel ∧
    isSolvedState frozenLevel = false :=
  ⟨by decide, rfl,
    detect_freeze_deadlocks_sound frozenLevel (by decide) [] frozenLevel rfl⟩


set_option maxRecDepth 1000000 in
set_option maxHeartbeats 0 in
/-- Claim C1.  Refuted: there is an RNG oracle under which `generate_level`
returns a (level, solution) pair whose level is solvable — the solver
returns a non-`NotFound` path for it, the first half of the claim — but
whose returned solution path does not solve the level: replaying it move by
move with `apply_move` from the level's initial state runs into a rejected
move, and the total replay that applies the legal moves and skips the
rejected ones ends in an unsolved state.  The path recorded by
`reverse_play_from_goal` is returned unreversed, and its pull steps never
relocate the player, so it bears no relation to a forward solution. -/
theorem generate_level_solution_path_wrong :
    (let lp := generate_level c1Oracle
     (solveTruthy (solve_sokoban_bfs lp.1 100000),
      replayLegal lp.1 lp.2,
      isSolvedState (replayTotal lp.1 lp.2)))
    = (true, none, false) := by rfl

end Sokoban
